import Mathlib

/-!
Shallow embedding of the train-dispatching simulation core
(`src/core/PhysicsEngine.ts`, `src/core/RailGraph.ts`, and the BFS
pathfinding helper `findPath` of `src/App.vue`).

Conventions of the embedding:
* TypeScript `number` is modelled as `ℚ` (positions, lengths, speeds, `dt`).
* `Record<string, T>` objects are modelled as association lists
  `List (String × T)` in insertion order; `Object.values` is the list of
  second components; indexing `obj[k]` is `lookupEntry k`.
* Optional fields (`field?:`) are `Option` fields; the JS idiom `x || d`
  for a numeric field with `d` such that `x = 0` also yields `d`-or-`0`
  consistently is modelled field by field (see `effectiveDir`,
  `boardingTimer`).
* `Math.random()`-derived dwell/buffer draws are modelled by an explicit
  input `rnd : ℕ × ℕ` holding the two already-floored non-negative draws;
  the engine is otherwise deterministic.
* `throw new Error(...)` in `triggerCollision` is modelled by the
  `Except (String × String)` result of `update`, carrying the two
  offending train ids; `console.error`/`alert` have no state effect and
  are dropped.
* `String.prototype.localeCompare` on the ASCII edge ids used by the
  repository is character-code lexicographic order, modelled by `strLt`
  on the character lists of the strings.
-/

/-- Node kind (`RailNode.type` in `RailGraph.ts`). -/
inductive NodeType where
  | switch
  | endpoint
  | connector
  | buffer_stop
deriving DecidableEq, Repr

/-- Signal aspect (`RailNode.signalState`). -/
inductive SignalState where
  | red
  | green
deriving DecidableEq, Repr

/-- Movement state (`TrainPhysics.state`). -/
inductive TrainState where
  | moving
  | stopped
deriving DecidableEq, Repr

/-- Passenger service state (`TrainPhysics.passengerState`). -/
inductive PassengerState where
  | BOARDING
  | READY
deriving DecidableEq, Repr

/-- `RailNode` of `RailGraph.ts` (the render-only `x`/`y` coordinates are
dropped; they are never read by the engine). -/
structure RailNode where
  id : String
  type : NodeType
  switchState : Option ℕ
  signalState : Option SignalState
deriving DecidableEq, Repr

/-- `RailEdge` of `RailGraph.ts` (the render-only bezier control points are
dropped). -/
structure RailEdge where
  id : String
  fromNode : String
  toNode : String
  length : ℚ
  occupiedBy : Option String
  isPlatform : Bool
deriving DecidableEq, Repr

/-- `RailMap` of `RailGraph.ts`; the `platforms` visual zones are dropped
(never read by the engine). -/
structure RailMap where
  nodes : List (String × RailNode)
  edges : List (String × RailEdge)
deriving DecidableEq, Repr

/-- Pending `nextMoveIntent` of a train. -/
structure MoveIntent where
  targetEdgeId : String
  overflowDistance : ℚ
deriving DecidableEq, Repr

/-- `TrainPhysics` of `RailGraph.ts`.  The `direction` field is not
declared in the TypeScript interface but is set by the host
(`App.vue`: `direction: 1`) and read by the engine as
`train.direction || 1`; it is modelled as an `Int` field. -/
structure TrainPhysics where
  id : String
  isCoupled : Bool
  currentEdgeId : String
  position : ℚ
  speed : ℚ
  state : TrainState
  direction : Int
  path : List String
  visitedPath : List String
  nextMoveIntent : Option MoveIntent
  passengerState : Option PassengerState
  boardingTimer : Option Int
  lastServicedEdgeId : Option String
  isHandedOver : Bool
  arrivalTick : Option Int
  stopDuration : Option Int
  stopBuffer : Option Int
deriving DecidableEq, Repr

/-- Record indexing `obj[k]` on an association list. -/
def lookupEntry {β : Type} (k : String) : List (String × β) → Option β
  | [] => none
  | (k', v) :: rest => if k' = k then some v else lookupEntry k rest

/-- `map.edges[eid]`. -/
def lookupEdge (m : RailMap) (eid : String) : Option RailEdge :=
  lookupEntry eid m.edges

/-- `map.nodes[nid]`. -/
def lookupNode (m : RailMap) (nid : String) : Option RailNode :=
  lookupEntry nid m.nodes

/-- `Object.values(map.edges)`. -/
def edgeValues (m : RailMap) : List RailEdge := m.edges.map Prod.snd

/-- Character-code lexicographic order on strings; the order that
`a.id.localeCompare(b.id)` induces on the ASCII edge ids of the data. -/
def strLt (a b : String) : Prop := a.data < b.data

instance : DecidableRel strLt := fun a b => by
  unfold strLt
  infer_instance

/-- Insert an edge into a list sorted ascending by `strLt` on ids
(insertion step of the `sort((a, b) => a.id.localeCompare(b.id))`). -/
def insertEdgeById (e : RailEdge) : List RailEdge → List RailEdge
  | [] => [e]
  | f :: fs => if strLt f.id e.id then f :: insertEdgeById e fs else e :: f :: fs

/-- `.sort((a, b) => a.id.localeCompare(b.id))` as an insertion sort. -/
def sortEdgesById : List RailEdge → List RailEdge
  | [] => []
  | e :: es => insertEdgeById e (sortEdgesById es)

/-- `Array.prototype.filter` with a decidable predicate. -/
def filterEdges (p : RailEdge → Prop) [DecidablePred p] : List RailEdge → List RailEdge
  | [] => []
  | e :: es => if p e then e :: filterEdges p es else filterEdges p es

/-- Physical constants of `PhysicsEngine.ts`. -/
def CAR_PITCH : ℚ := 30

def DWELL_TIME_MIN : Int := 1800

def DWELL_TIME_MAX : Int := 3600

def BUFFER_TIME_MIN : Int := 3600

def BUFFER_TIME_MAX : Int := 5400

def RESUME_SPEED : ℚ := 60

/-- Forget the advisory `occupiedBy` field of an edge (the geometry the
engine's movement logic reads). -/
def scrubEdge (e : RailEdge) : RailEdge := { e with occupiedBy := none }

/-- Forget all advisory occupancy of a map. -/
def scrubMap (m : RailMap) : RailMap :=
  { m with edges := m.edges.map (fun p => (p.1, scrubEdge p.2)) }

namespace PhysicsEngine

/-- The JS read `train.direction || 1` (`0`/absent fall back to forward). -/
def effectiveDir (t : TrainPhysics) : Int :=
  if t.direction = 0 then 1 else t.direction

/-- The candidate list built inside `resolveNextEdge`: flow-consistent
edges other than the incoming one (`arrivedAtFromNode` decides the flow
test), sorted by id. -/
def candidateEdges (m : RailMap) (node : RailNode) (incomingEdgeId : String)
    (incomingEdge : RailEdge) : List RailEdge :=
  sortEdgesById (filterEdges
    (fun e => ¬ (e.id = incomingEdgeId) ∧
      ((incomingEdge.fromNode = node.id ∧ e.toNode = node.id) ∨
       (¬ incomingEdge.fromNode = node.id ∧ e.fromNode = node.id)))
    (edgeValues m))

/-- `resolveNextEdge(node, map, incomingEdgeId)`: select the next edge at
`node` for a train that arrived on `incomingEdgeId`, honoring flow
consistency and, at branching switches, the switch state. -/
def resolveNextEdge (node? : Option RailNode) (m : RailMap) (incomingEdgeId : String) :
    Option String :=
  match node? with
  | none => none
  | some node =>
    match lookupEdge m incomingEdgeId with
    | none => none
    | some incomingEdge =>
      match candidateEdges m node incomingEdgeId incomingEdge with
      | [] => none
      | [c] => some c.id
      | c :: d :: cs =>
        if node.type = NodeType.switch then
          ((c :: d :: cs).get?
            (node.switchState.getD 0 % (c :: d :: cs).length)).map (fun e => e.id)
        else
          some c.id

/-- `handlePassengerLogic(train)` (Phase 0): decrement the boarding timer
of a `BOARDING` train; at `≤ 0` transition to `READY`. -/
def handlePassengerLogic (t : TrainPhysics) : TrainPhysics :=
  if t.passengerState ≠ some PassengerState.BOARDING then t
  else if t.boardingTimer.getD 0 - 1 ≤ 0 then
    { t with
      boardingTimer := some (t.boardingTimer.getD 0 - 1)
      passengerState := some PassengerState.READY }
  else { t with boardingTimer := some (t.boardingTimer.getD 0 - 1) }

/-- `computeIntent(train, map, dt, currentTick)` (Phase 1, moving trains).
`rnd` carries the two floored `Math.random()` draws
(`Math.floor(Math.random() * (MAX - MIN))`) for the dwell and buffer. -/
def tentativePos (t : TrainPhysics) (dt : ℚ) : ℚ :=
  t.position + t.speed * dt * (effectiveDir t : ℚ)

/-- The `overflow` local of `computeIntent`:
`dir === 1 ? tPos - currentEdge.length : Math.abs(tPos)`. -/
def overflowOf (t : TrainPhysics) (dt : ℚ) (currentEdge : RailEdge) : ℚ :=
  if effectiveDir t = 1 then tentativePos t dt - currentEdge.length
  else |tentativePos t dt|

def computeIntent (t : TrainPhysics) (m : RailMap) (dt : ℚ) (currentTick : Int)
    (rnd : ℕ × ℕ) : TrainPhysics :=
  if t.state ≠ TrainState.moving ∨ t.speed = 0 then t
  else
    match lookupEdge m t.currentEdgeId with
    | none => { t with state := TrainState.stopped }
    | some currentEdge =>
      if (effectiveDir t = 1 ∧ tentativePos t dt ≥ currentEdge.length) ∨
         (effectiveDir t = -1 ∧ tentativePos t dt ≤ 0) then
        if currentEdge.isPlatform = true ∧ t.lastServicedEdgeId ≠ some t.currentEdgeId then
          { t with
            position := if effectiveDir t = 1 then currentEdge.length else 0
            speed := 0
            state := TrainState.stopped
            passengerState := some PassengerState.BOARDING
            arrivalTick := some currentTick
            boardingTimer := some (DWELL_TIME_MIN + (rnd.1 : Int))
            stopDuration := some (DWELL_TIME_MIN + (rnd.1 : Int))
            stopBuffer := some (BUFFER_TIME_MIN + (rnd.2 : Int))
            lastServicedEdgeId := some t.currentEdgeId }
        else if t.path = [] then
          { t with
            position := if effectiveDir t = 1 then currentEdge.length else 0
            speed := 0
            state := TrainState.stopped }
        else
          match lookupNode m
              (if effectiveDir t = 1 then currentEdge.toNode else currentEdge.fromNode) with
          | none => { t with state := TrainState.stopped }
          | some nextNode =>
            if nextNode.signalState = some SignalState.red then
              { t with
                position := if effectiveDir t = 1 then currentEdge.length else 0
                speed := 0
                state := TrainState.stopped }
            else
              match resolveNextEdge (some nextNode) m t.currentEdgeId with
              | none =>
                { t with
                  position := if effectiveDir t = 1 then currentEdge.length else 0
                  speed := 0
                  state := TrainState.stopped }
              | some nid =>
                { t with nextMoveIntent := some ⟨nid, overflowOf t dt currentEdge⟩ }
      else
        { t with position := tentativePos t dt, nextMoveIntent := none }

/-- `tryResume(train, map)` (Phase 1, stopped trains). -/
def tryResume (t : TrainPhysics) (m : RailMap) : TrainPhysics :=
  match lookupEdge m t.currentEdgeId with
  | none => t
  | some currentEdge =>
    if t.passengerState = some PassengerState.BOARDING ∨
       t.passengerState = some PassengerState.READY then t
    else if (if effectiveDir t = 1 then currentEdge.length - t.position else t.position) >
        1 / 10 then t
    else
      match lookupNode m
          (if effectiveDir t = 1 then currentEdge.toNode else currentEdge.fromNode) with
      | none => t
      | some nextNode =>
        match resolveNextEdge (some nextNode) m t.currentEdgeId with
        | none => t
        | some _ =>
          if nextNode.signalState = some SignalState.red then t
          else { t with state := TrainState.moving, speed := RESUME_SPEED }

/-- `getTrainLength(train)`. -/
def getTrainLength (t : TrainPhysics) : ℚ :=
  (if t.isCoupled then (16 : ℚ) else 8) * CAR_PITCH

/-- `checkSegmentsOverlap(head1, tail1, head2, tail2)`. -/
def checkSegmentsOverlap (head1 tail1 head2 tail2 : ℚ) : Prop :=
  ¬ (head1 < tail2 ∨ tail1 > head2)

instance (head1 tail1 head2 tail2 : ℚ) :
    Decidable (checkSegmentsOverlap head1 tail1 head2 tail2) := by
  unfold checkSegmentsOverlap
  infer_instance

/-- The test applied to an ordered pair inside `detectPhysicalCollisions`:
neither handed over, same edge, and overlapping `[tail, head]` spans. -/
def collidesWith (t1 t2 : TrainPhysics) : Prop :=
  ¬ t1.isHandedOver = true ∧ ¬ t2.isHandedOver = true ∧
  t1.currentEdgeId = t2.currentEdgeId ∧
  checkSegmentsOverlap t1.position (t1.position - getTrainLength t1)
    t2.position (t2.position - getTrainLength t2)

instance (t1 t2 : TrainPhysics) : Decidable (collidesWith t1 t2) := by
  unfold collidesWith
  infer_instance

/-- Inner `j`-loop of `detectPhysicalCollisions`: first train in `rest`
colliding with `t`, as the thrown id pair. -/
def findCollisionWith (t : TrainPhysics) : List TrainPhysics → Option (String × String)
  | [] => none
  | u :: rest => if collidesWith t u then some (t.id, u.id) else findCollisionWith t rest

/-- `detectPhysicalCollisions(trains)` (Phase 1.5): the id pair of the
first colliding pair in scan order, or `none`.  The source mutates no
train here; a `some` result models the thrown fatal error. -/
def detectPhysicalCollisions : List TrainPhysics → Option (String × String)
  | [] => none
  | t :: rest =>
    match findCollisionWith t rest with
    | some p => some p
    | none => detectPhysicalCollisions rest

/-- `resolveConflicts(trains)` (Phase 2) with the accumulated `claims` map
(edge id → train id, most recent claim first). -/
def resolveConflictsAux (claims : List (String × String)) :
    List TrainPhysics → Option (String × String)
  | [] => none
  | t :: rest =>
    match t.nextMoveIntent with
    | none => resolveConflictsAux claims rest
    | some intent =>
      match lookupEntry intent.targetEdgeId claims with
      | some prev => some (t.id, prev)
      | none => resolveConflictsAux ((intent.targetEdgeId, t.id) :: claims) rest

/-- `resolveConflicts(trains)` (Phase 2): the id pair of the first
simultaneous claim on one target edge, or `none`. -/
def resolveConflicts (trains : List TrainPhysics) : Option (String × String) :=
  resolveConflictsAux [] trains

/-- `map.edges[eid].occupiedBy = v` (no-op when the key is absent). -/
def setOccupied (m : RailMap) (eid : String) (v : Option String) : RailMap :=
  { m with
    edges := m.edges.map (fun p =>
      if p.1 = eid then (p.1, { p.2 with occupiedBy := v }) else p) }

/-- "Release Old": clear the old edge's occupancy when this train holds
it. -/
def releaseOld (m : RailMap) (t : TrainPhysics) : RailMap :=
  match lookupEdge m t.currentEdgeId with
  | some oldEdge =>
    if oldEdge.occupiedBy = some t.id then setOccupied m t.currentEdgeId none else m
  | none => m

/-- History push: unshift the current edge onto `visitedPath`, then pop
the last element when the length exceeds 20. -/
def pushVisited (t : TrainPhysics) : TrainPhysics :=
  { t with
    visitedPath :=
      if (t.currentEdgeId :: t.visitedPath).length > 20 then
        (t.currentEdgeId :: t.visitedPath).dropLast
      else t.currentEdgeId :: t.visitedPath }

/-- "AUTO-SET DIRECTION": direction and position on the target edge from
the arrival node, with the logged non-fatal fallback. -/
def commitDirPos (t1 : TrainPhysics) (intent : MoveIntent) (ne : RailEdge)
    (arrivalNodeId : String) : TrainPhysics :=
  if ne.fromNode = arrivalNodeId then
    { t1 with direction := 1, position := intent.overflowDistance }
  else if ne.toNode = arrivalNodeId then
    { t1 with direction := -1, position := ne.length - intent.overflowDistance }
  else
    { t1 with position := intent.overflowDistance }

/-- "Consume path only if we followed the plan". -/
def consumePath (path : List String) (nextEdgeId : String) : List String :=
  match path with
  | [] => path
  | h :: tl => if h = nextEdgeId then tl else path

/-- Commit steps after the release and history push, on the released map
`m1` and history-updated train `t1`. -/
def commitBody (m1 : RailMap) (t1 : TrainPhysics) (intent : MoveIntent) :
    TrainPhysics × RailMap :=
  match lookupEdge m1 t1.currentEdgeId with
  | none => ({ t1 with nextMoveIntent := none }, m1)
  | some currentEdge =>
    match lookupEdge m1 intent.targetEdgeId with
    | none =>
      ({ t1 with state := TrainState.stopped, nextMoveIntent := none }, m1)
    | some ne =>
      -- Occupy New; the subsequent reads of `nextEdge` only touch
      -- geometry fields, which the occupancy write leaves unchanged.
      ({ commitDirPos t1 intent ne
          (if effectiveDir t1 = 1 then currentEdge.toNode else currentEdge.fromNode) with
          currentEdgeId := intent.targetEdgeId
          path := consumePath t1.path intent.targetEdgeId
          nextMoveIntent := none },
        setOccupied m1 intent.targetEdgeId (some t1.id))

/-- The body of the Phase 3 loop of `commitUpdates` for one train,
threading the map (occupancy writes).  `pushVisited` and `releaseOld`
touch disjoint state, so their order is immaterial; the source releases
first. -/
def commitOne (m : RailMap) (t : TrainPhysics) : TrainPhysics × RailMap :=
  match t.nextMoveIntent with
  | none => (t, m)
  | some intent => commitBody (releaseOld m t) (pushVisited t) intent

/-- `commitUpdates(trains, map)` (Phase 3). -/
def commitUpdates : List TrainPhysics → RailMap → List TrainPhysics × RailMap
  | [], m => ([], m)
  | t :: rest, m =>
    let r := commitOne m t
    let rr := commitUpdates rest r.2
    (r.1 :: rr.1, rr.2)

/-- Phase 1 dispatch for one train. -/
def phase1Train (m : RailMap) (dt : ℚ) (currentTick : Int) (rnd : String → ℕ × ℕ)
    (t : TrainPhysics) : TrainPhysics :=
  if t.state = TrainState.moving then computeIntent t m dt currentTick (rnd t.id)
  else tryResume t m

/-- `PhysicsEngine.update(trains, map, dt, currentTick)`: the full tick
pipeline.  `rnd` assigns each train its `Math.random()` draws.  An
`Except.error` carries the ids thrown by `triggerCollision`; the source
then aborts the tick, so no commit happens on that path. -/
def update (trains : List TrainPhysics) (m : RailMap) (dt : ℚ) (currentTick : Int)
    (rnd : String → ℕ × ℕ) : Except (String × String) (List TrainPhysics × RailMap) :=
  let ts0 := trains.map handlePassengerLogic
  let ts1 := ts0.map (phase1Train m dt currentTick rnd)
  match detectPhysicalCollisions ts1 with
  | some p => Except.error p
  | none =>
    match resolveConflicts ts1 with
    | some p => Except.error p
    | none => Except.ok (commitUpdates ts1 m)

/-- Iterate `update` over `n` ticks (tick counters and random draws
supplied per iteration), stopping at the first fatal error. -/
def updateN (dt : ℚ) (ticks : ℕ → Int) (rnds : ℕ → String → ℕ × ℕ) :
    ℕ → List TrainPhysics → RailMap → Except (String × String) (List TrainPhysics × RailMap)
  | 0, trains, m => Except.ok (trains, m)
  | n + 1, trains, m =>
    match update trains m dt (ticks n) (rnds n) with
    | Except.error p => Except.error p
    | Except.ok r => updateN dt ticks rnds n r.1 r.2

/-- Two maps that agree except possibly on the advisory `occupiedBy`
values of their edges. -/
def MapsOccEq (m1 m2 : RailMap) : Prop := scrubMap m1 = scrubMap m2

/-- The list of trains after Phase 0 and Phase 1 of one tick. -/
def phase1List (trains : List TrainPhysics) (m : RailMap) (dt : ℚ) (currentTick : Int)
    (rnd : String → ℕ × ℕ) : List TrainPhysics :=
  (trains.map handlePassengerLogic).map (phase1Train m dt currentTick rnd)

end PhysicsEngine

namespace AppVue

/-- Inner loop of `findPath` over the outgoing edges of the popped node:
push every not-yet-visited `toNode` (marking it visited at push time) and
return the new queue entries in order together with the grown visited
set. -/
def pushSuccessors (path : List String) :
    List RailEdge → Finset String → List (String × List String) × Finset String
  | [], visited => ([], visited)
  | e :: es, visited =>
    if e.toNode ∈ visited then pushSuccessors path es visited
    else
      let r := pushSuccessors path es (insert e.toNode visited)
      ((e.toNode, path ++ [e.id]) :: r.1, r.2)

/-- The `while (queue.length > 0)` loop of `findPath`, with explicit fuel
(the loop runs at most `|edges| + 2` iterations, proved below), and
instrumented with the history of popped nodes and of enqueued nodes.
The first component is the returned path. -/
def bfsAux (m : RailMap) (target : String) :
    ℕ → List (String × List String) → Finset String → List String → List String →
    List String × List String × List String
  | 0, _, _, pops, enqs => ([], pops, enqs)
  | _ + 1, [], _, pops, enqs => ([], pops, enqs)
  | fuel + 1, (node, path) :: rest, visited, pops, enqs =>
    if node = target then (path, pops ++ [node], enqs)
    else
      let outgoing := filterEdges (fun e => e.fromNode = node) (edgeValues m)
      let r := pushSuccessors path outgoing visited
      bfsAux m target fuel (rest ++ r.1) r.2 (pops ++ [node]) (enqs ++ r.1.map Prod.fst)

/-- The full instrumented run of `findPath(startNodeId, targetNodeId, railMap)`
(`App.vue`): result, popped-node history, enqueued-node history. -/
def bfsRun (startNodeId targetNodeId : String) (m : RailMap) :
    List String × List String × List String :=
  bfsAux m targetNodeId ((edgeValues m).length + 2)
    [(startNodeId, [])] {startNodeId} [] [startNodeId]

/-- `findPath(startNodeId, targetNodeId, railMap)` of `App.vue`. -/
def findPath (startNodeId targetNodeId : String) (m : RailMap) : List String :=
  (bfsRun startNodeId targetNodeId m).1

/-- `p` is an ordered list of edge ids forming a directed path in `m` from
`s` to `t`: each listed edge starts at the endpoint reached so far. -/
def isEdgePath (m : RailMap) : String → List String → String → Prop
  | s, [], t => s = t
  | s, eid :: rest, t =>
    ∃ e ∈ edgeValues m, e.id = eid ∧ e.fromNode = s ∧ isEdgePath m e.toNode rest t

/-- `t` is reachable from `s` along edge directions. -/
def Reachable (m : RailMap) (s t : String) : Prop :=
  ∃ p, isEdgePath m s p t

def decIsEdgePath (m : RailMap) (t : String) :
    (p : List String) → (s : String) → Decidable (isEdgePath m s p t)
  | [], s => decidable_of_iff (s = t) (by simp [isEdgePath])
  | eid :: rest, s =>
    haveI : DecidablePred
        (fun e : RailEdge => e.id = eid ∧ e.fromNode = s ∧ isEdgePath m e.toNode rest t) :=
      fun e =>
        haveI := decIsEdgePath m t rest e.toNode
        inferInstance
    decidable_of_iff (∃ e ∈ edgeValues m, e.id = eid ∧ e.fromNode = s ∧
      isEdgePath m e.toNode rest t) (by simp [isEdgePath])

instance (m : RailMap) (s : String) (p : List String) (t : String) :
    Decidable (isEdgePath m s p t) :=
  decIsEdgePath m t p s

/-- Every node the search can ever visit: the start node and the heads of
all edges. -/
def bfsUniv (m : RailMap) (s : String) : Finset String :=
  insert s ((edgeValues m).map (fun e => e.toNode)).toFinset

end AppVue

/-! ## Claim-side definitions

These phrase conditions the way the specification states them, to be
compared with the source-side definitions above. -/

namespace Claims

/-- Train length per the spec: a fixed per-car pitch of 30 times the car
count, 16 cars for a coupled consist and 8 otherwise. -/
def claimTrainLength (t : TrainPhysics) : ℚ :=
  30 * (if t.isCoupled then 16 else 8)

/-- Closed intervals `[lo1, hi1]` and `[lo2, hi2]` overlap: neither lies
fully before nor fully after the other. -/
def intervalsOverlap (lo1 hi1 lo2 hi2 : ℚ) : Prop :=
  ¬ hi1 < lo2 ∧ ¬ hi2 < lo1

instance (lo1 hi1 lo2 hi2 : ℚ) : Decidable (intervalsOverlap lo1 hi1 lo2 hi2) := by
  unfold intervalsOverlap
  infer_instance

/-- The collision condition of claim C1 on a pair of trains: neither
handed over, same current edge, and overlapping
`[position − trainLength, position]` intervals. -/
def claimCollides (t u : TrainPhysics) : Prop :=
  t.isHandedOver = false ∧ u.isHandedOver = false ∧
  t.currentEdgeId = u.currentEdgeId ∧
  intervalsOverlap (t.position - claimTrainLength t) t.position
    (u.position - claimTrainLength u) u.position

/-- The candidate list as claim C3 words it: all edges other than the
incoming one that preserve flow direction — `fromNode` at the arrival
node when the train arrived moving forward, `toNode` there when it
arrived moving backward — sorted by the total order on edge ids. -/
def c3Candidates (m : RailMap) (node : RailNode) (incomingEdgeId : String)
    (forward : Bool) : List RailEdge :=
  sortEdgesById (filterEdges
    (fun e => ¬ (e.id = incomingEdgeId) ∧
      (if forward = true then e.fromNode = node.id else e.toNode = node.id))
    (edgeValues m))

end Claims

/-! ## Concrete data used by witnesses and counterexamples -/

/-- A two-way switch set to its second branch, with two flow-consistent
candidates (`e2`, `e3`) for a forward arrival on `e1`. -/
def wNodeB : RailNode := ⟨"B", NodeType.switch, some 1, some SignalState.green⟩

def wIncoming : RailEdge := ⟨"e1", "A", "B", 10, none, false⟩

def wMap : RailMap :=
  { nodes := [("A", ⟨"A", NodeType.endpoint, none, none⟩), ("B", wNodeB)]
    edges :=
      [ ("e1", wIncoming)
      , ("e3", ⟨"e3", "B", "D", 7, none, false⟩)
      , ("e2", ⟨"e2", "B", "C", 5, none, false⟩) ] }

/-- A `buffer_stop` node that nevertheless has a flow-consistent
candidate edge (`e2`). -/
def c4Node : RailNode := ⟨"B", NodeType.buffer_stop, none, none⟩

def c4e1 : RailEdge := ⟨"e1", "A", "B", 10, none, false⟩

def c4Map : RailMap :=
  { nodes := [("A", ⟨"A", NodeType.endpoint, none, none⟩), ("B", c4Node)]
    edges := [("e1", c4e1), ("e2", ⟨"e2", "B", "C", 5, none, false⟩)] }

/-- A fragment of the shipped `stationTerminal` layout
(`src/src/data/stations.ts`): platform track `t1` runs into the
`buffer_stop` node `n_p1_end`, and outbound edge `t1_rev` leaves it. -/
def c4pEnd : RailNode := ⟨"n_p1_end", NodeType.buffer_stop, none, none⟩

def c4t1 : RailEdge := ⟨"t1", "n_p1_start", "n_p1_end", 1500, none, true⟩

def c4TerminalMap : RailMap :=
  { nodes :=
      [ ("n_p1_start", ⟨"n_p1_start", NodeType.connector, none, some SignalState.green⟩)
      , ("n_p1_end", c4pEnd) ]
    edges :=
      [ ("t1", c4t1)
      , ("t1_rev", ⟨"t1_rev", "n_p1_end", "n_p1_start", 1500, none, false⟩) ] }

/-- C5 witness data: a train one tick away from the boundary of an
unserviced platform edge. -/
def c5Edge : RailEdge := ⟨"p1", "A", "B", 10, none, true⟩

def c5Map : RailMap :=
  { nodes := [("A", ⟨"A", NodeType.endpoint, none, none⟩), ("B", ⟨"B", NodeType.endpoint, none, none⟩)]
    edges := [("p1", c5Edge)] }

def c5Train : TrainPhysics :=
  { id := "T1"
    isCoupled := false
    currentEdgeId := "p1"
    position := 9
    speed := 60
    state := TrainState.moving
    direction := 1
    path := ["e_next"]
    visitedPath := []
    nextMoveIntent := none
    passengerState := none
    boardingTimer := none
    lastServicedEdgeId := none
    isHandedOver := false
    arrivalTick := none
    stopDuration := none
    stopBuffer := none }

/-- C8 data: a train one tick from overshooting a short next edge by
more than that edge's length (overflow 7 onto an edge of length 5). -/
def c8Map : RailMap :=
  { nodes :=
      [ ("A", ⟨"A", NodeType.endpoint, none, none⟩)
      , ("B", ⟨"B", NodeType.connector, none, none⟩)
      , ("C", ⟨"C", NodeType.endpoint, none, none⟩) ]
    edges :=
      [ ("e1", ⟨"e1", "A", "B", 10, none, false⟩)
      , ("e2", ⟨"e2", "B", "C", 5, none, false⟩) ] }

def c8Train : TrainPhysics :=
  { id := "T1"
    isCoupled := false
    currentEdgeId := "e1"
    position := 9
    speed := 8
    state := TrainState.moving
    direction := 1
    path := ["e2"]
    visitedPath := []
    nextMoveIntent := none
    passengerState := none
    boardingTimer := none
    lastServicedEdgeId := none
    isHandedOver := false
    arrivalTick := none
    stopDuration := none
    stopBuffer := none }

/-- C8 witness data: the same approach with a tick movement short enough
to stay within every edge of the map. -/
def c8SlowTrain : TrainPhysics := { c8Train with speed := 2 }

/-- C2 witness data: two stopped boarding trains carrying pending intents
on the same target edge, on distinct current edges. -/
def c2Train (nm eid : String) : TrainPhysics :=
  { id := nm
    isCoupled := false
    currentEdgeId := eid
    position := 0
    speed := 0
    state := TrainState.stopped
    direction := 1
    path := []
    visitedPath := []
    nextMoveIntent := some ⟨"shared", 0⟩
    passengerState := some PassengerState.BOARDING
    boardingTimer := some 100
    lastServicedEdgeId := none
    isHandedOver := false
    arrivalTick := none
    stopDuration := none
    stopBuffer := none }

/-- C6 witness data: a forward arrival at `B` committing onto `e2 = B→C`
with overflow 3, planned path headed by `e2`. -/
def c6Cur : RailEdge := ⟨"e1", "A", "B", 10, none, false⟩

def c6Ne : RailEdge := ⟨"e2", "B", "C", 5, none, false⟩

def c6Map : RailMap :=
  { nodes := []
    edges := [("e1", c6Cur), ("e2", c6Ne)] }

def c6Train : TrainPhysics :=
  { id := "T1"
    isCoupled := false
    currentEdgeId := "e1"
    position := 10
    speed := 60
    state := TrainState.moving
    direction := 1
    path := ["e2", "e9"]
    visitedPath := []
    nextMoveIntent := some ⟨"e2", 3⟩
    passengerState := none
    boardingTimer := none
    lastServicedEdgeId := none
    isHandedOver := false
    arrivalTick := none
    stopDuration := none
    stopBuffer := none }

/-- C7 witness data: a stopped boarding train alone on an empty map. -/
def c7Train : TrainPhysics :=
  { id := "T1"
    isCoupled := false
    currentEdgeId := "e1"
    position := 0
    speed := 0
    state := TrainState.stopped
    direction := 1
    path := []
    visitedPath := []
    nextMoveIntent := none
    passengerState := some PassengerState.BOARDING
    boardingTimer := some 100
    lastServicedEdgeId := none
    isHandedOver := false
    arrivalTick := none
    stopDuration := none
    stopBuffer := none }

/-- Expected post-tick state of the slow C8 witness run. -/
def c8SlowFinal : TrainPhysics :=
  { c8Train with
    speed := 2
    currentEdgeId := "e2"
    position := 1
    path := []
    visitedPath := ["e1"]
    direction := 1 }

def c8FinalMap : RailMap :=
  { nodes := c8Map.nodes
    edges :=
      [ ("e1", ⟨"e1", "A", "B", 10, none, false⟩)
      , ("e2", ⟨"e2", "B", "C", 5, some "T1", false⟩) ] }

/-- C10 witness data: the C8 scenario with pre-set advisory occupancy on
one map and none on the other. -/
def c10m1 : RailMap :=
  { nodes := c8Map.nodes
    edges :=
      [ ("e1", ⟨"e1", "A", "B", 10, some "GHOST", false⟩)
      , ("e2", ⟨"e2", "B", "C", 5, some "T9", false⟩) ] }

/-- C9 witness data: a two-edge line `A →e1→ B →e2→ C` plus an
unreachable isolated node `Z`. -/
def c9Map : RailMap :=
  { nodes :=
      [ ("A", ⟨"A", NodeType.endpoint, none, none⟩)
      , ("B", ⟨"B", NodeType.connector, none, none⟩)
      , ("C", ⟨"C", NodeType.endpoint, none, none⟩)
      , ("Z", ⟨"Z", NodeType.endpoint, none, none⟩) ]
    edges :=
      [ ("e1", ⟨"e1", "A", "B", 10, none, false⟩)
      , ("e2", ⟨"e2", "B", "C", 5, none, false⟩) ] }

/-! ## Generic helper lemmas -/

theorem filterEdges_congr (p q : RailEdge → Prop) [DecidablePred p] [DecidablePred q]
    (h : ∀ e, p e ↔ q e) (l : List RailEdge) : filterEdges p l = filterEdges q l := by
  induction l with
  | nil => rfl
  | cons e es ih =>
    by_cases hp : p e
    · rw [filterEdges, if_pos hp, filterEdges, if_pos ((h e).mp hp), ih]
    · rw [filterEdges, if_neg hp, filterEdges, if_neg (fun hq => hp ((h e).mpr hq)), ih]

namespace PhysicsEngine

theorem collidesWith_iff_claimCollides (t u : TrainPhysics) :
    collidesWith t u ↔ Claims.claimCollides t u := by
  unfold collidesWith Claims.claimCollides checkSegmentsOverlap Claims.intervalsOverlap
  have hlen : ∀ v : TrainPhysics, getTrainLength v = Claims.claimTrainLength v := by
    intro v
    unfold getTrainLength Claims.claimTrainLength CAR_PITCH
    rw [mul_comm]
  rw [hlen t, hlen u]
  simp only [not_or, Bool.not_eq_true, gt_iff_lt]

theorem findCollisionWith_isSome (t : TrainPhysics) (l : List TrainPhysics) :
    (findCollisionWith t l).isSome ↔ ∃ u ∈ l, collidesWith t u := by
  induction l with
  | nil => simp [findCollisionWith]
  | cons u rest ih =>
    by_cases h : collidesWith t u
    · simp [findCollisionWith, if_pos h, h]
    · simp [findCollisionWith, if_neg h, ih, h]

theorem detectPhysicalCollisions_cons_isSome (t : TrainPhysics) (rest : List TrainPhysics) :
    (detectPhysicalCollisions (t :: rest)).isSome ↔
      ((findCollisionWith t rest).isSome ∨ (detectPhysicalCollisions rest).isSome) := by
  cases h : findCollisionWith t rest <;> simp [detectPhysicalCollisions, h]

end PhysicsEngine

theorem lookupEntry_map_scrub (l : List (String × RailEdge)) (k : String)
    (f : String × RailEdge → String × RailEdge)
    (hf : ∀ p, (f p).1 = p.1 ∧ scrubEdge (f p).2 = scrubEdge p.2) :
    (lookupEntry k (l.map f)).map scrubEdge = (lookupEntry k l).map scrubEdge := by
  induction l with
  | nil => rfl
  | cons p rest ih =>
    obtain ⟨h1, h2⟩ := hf p
    by_cases hk : p.1 = k
    · simp only [List.map, lookupEntry, h1, hk, if_pos, Option.map, h2]
    · simp only [List.map, lookupEntry, h1, hk, if_neg, ih]
      exact ih

namespace PhysicsEngine

theorem lookupEdge_setOccupied_scrub (m : RailMap) (eid : String) (v : Option String)
    (k : String) :
    (lookupEdge (setOccupied m eid v) k).map scrubEdge = (lookupEdge m k).map scrubEdge := by
  unfold lookupEdge setOccupied
  exact lookupEntry_map_scrub m.edges k _ (fun p => by
    by_cases h : p.1 = eid <;> simp [h, scrubEdge])

theorem lookupEdge_releaseOld_scrub (m : RailMap) (t : TrainPhysics) (k : String) :
    (lookupEdge (releaseOld m t) k).map scrubEdge = (lookupEdge m k).map scrubEdge := by
  unfold releaseOld
  cases h : lookupEdge m t.currentEdgeId with
  | none => rfl
  | some oe =>
    dsimp only
    by_cases hocc : oe.occupiedBy = some t.id
    · rw [if_pos hocc]
      exact lookupEdge_setOccupied_scrub m t.currentEdgeId none k
    · rw [if_neg hocc]

/-- Transfer a `lookupEdge` fact across an occupancy-only map change. -/
theorem lookupEdge_scrub_transfer (m1 m : RailMap) (k : String) (e : RailEdge)
    (hs : ∀ k', (lookupEdge m1 k').map scrubEdge = (lookupEdge m k').map scrubEdge)
    (he : lookupEdge m k = some e) :
    ∃ e1, lookupEdge m1 k = some e1 ∧ scrubEdge e1 = scrubEdge e := by
  have h := hs k
  rw [he] at h
  cases h1 : lookupEdge m1 k with
  | none => rw [h1] at h; cases h
  | some e1 =>
    rw [h1] at h
    exact ⟨e1, rfl, Option.some.inj h⟩

theorem lookupEntry_scrubMap (l : List (String × RailEdge)) (k : String) :
    lookupEntry k (l.map (fun p => (p.1, scrubEdge p.2))) =
      (lookupEntry k l).map scrubEdge := by
  induction l with
  | nil => rfl
  | cons p rest ih =>
    by_cases hk : p.1 = k
    · simp only [List.map, lookupEntry, if_pos hk, Option.map]
    · simp only [List.map, lookupEntry, if_neg hk]
      exact ih

theorem MapsOccEq.nodes_eq {m1 m2 : RailMap} (h : MapsOccEq m1 m2) :
    m1.nodes = m2.nodes := by
  have hh := congrArg RailMap.nodes h
  exact hh

theorem MapsOccEq.lookup_eq {m1 m2 : RailMap} (h : MapsOccEq m1 m2) (k : String) :
    (lookupEdge m1 k).map scrubEdge = (lookupEdge m2 k).map scrubEdge := by
  have hh : lookupEntry k (m1.edges.map (fun p => (p.1, scrubEdge p.2))) =
      lookupEntry k (m2.edges.map (fun p => (p.1, scrubEdge p.2))) :=
    congrArg (fun mm : RailMap => lookupEntry k mm.edges) h
  rw [lookupEntry_scrubMap, lookupEntry_scrubMap] at hh
  exact hh

theorem MapsOccEq.values_eq {m1 m2 : RailMap} (h : MapsOccEq m1 m2) :
    (edgeValues m1).map scrubEdge = (edgeValues m2).map scrubEdge := by
  have hh : m1.edges.map (fun p => scrubEdge p.2) = m2.edges.map (fun p => scrubEdge p.2) := by
    have h2 : (m1.edges.map (fun p => (p.1, scrubEdge p.2))).map Prod.snd =
        (m2.edges.map (fun p => (p.1, scrubEdge p.2))).map Prod.snd :=
      congrArg (fun mm : RailMap => mm.edges.map Prod.snd) h
    rw [List.map_map, List.map_map] at h2
    exact h2
  unfold edgeValues
  rw [List.map_map, List.map_map]
  exact hh

theorem filterEdges_map_scrub_congr (p : RailEdge → Prop) [DecidablePred p]
    (hp : ∀ e : RailEdge, p e ↔ p (scrubEdge e)) :
    ∀ l1 l2 : List RailEdge, l1.map scrubEdge = l2.map scrubEdge →
      (filterEdges p l1).map scrubEdge = (filterEdges p l2).map scrubEdge := by
  intro l1
  induction l1 with
  | nil =>
    intro l2 hl
    cases l2 with
    | nil => rfl
    | cons e es => cases hl
  | cons e es ih =>
    intro l2 hl
    cases l2 with
    | nil => cases hl
    | cons f fs =>
      have hef : scrubEdge e = scrubEdge f := by
        have hh := congrArg (fun l => l.head?) hl
        simpa using hh
      have hes : es.map scrubEdge = fs.map scrubEdge := by
        have hh := congrArg (fun l => l.tail) hl
        simpa using hh
      have hpe : p e ↔ p f := by
        rw [hp e, hp f, hef]
      by_cases hpe1 : p e
      · rw [filterEdges, if_pos hpe1, filterEdges, if_pos (hpe.mp hpe1)]
        simp only [List.map]
        rw [hef, ih fs hes]
      · rw [filterEdges, if_neg hpe1, filterEdges, if_neg (fun hq => hpe1 (hpe.mpr hq))]
        exact ih fs hes

theorem insertEdgeById_map_scrub_congr (e f : RailEdge) (hef : scrubEdge e = scrubEdge f) :
    ∀ l1 l2 : List RailEdge, l1.map scrubEdge = l2.map scrubEdge →
      (insertEdgeById e l1).map scrubEdge = (insertEdgeById f l2).map scrubEdge := by
  have hid : e.id = f.id := by
    have hh := congrArg RailEdge.id hef; exact hh
  intro l1
  induction l1 with
  | nil =>
    intro l2 hl
    cases l2 with
    | nil => simp only [insertEdgeById, List.map, hef]
    | cons g gs => cases hl
  | cons g gs ih =>
    intro l2 hl
    cases l2 with
    | nil => cases hl
    | cons g2 gs2 =>
      have hg : scrubEdge g = scrubEdge g2 := by
        have hh := congrArg (fun l => l.head?) hl
        simpa using hh
      have hgs : gs.map scrubEdge = gs2.map scrubEdge := by
        have hh := congrArg (fun l => l.tail) hl
        simpa using hh
      have hgid : g.id = g2.id := by
        have hh := congrArg RailEdge.id hg; exact hh
      by_cases hlt : strLt g.id e.id
      · rw [insertEdgeById, if_pos hlt, insertEdgeById,
          if_pos (by rw [← hgid, ← hid]; exact hlt)]
        simp only [List.map]
        rw [hg, ih gs2 hgs]
      · rw [insertEdgeById, if_neg hlt, insertEdgeById,
          if_neg (by rw [← hgid, ← hid]; exact hlt)]
        simp only [List.map]
        rw [hef, hg, hgs]

theorem sortEdgesById_map_scrub_congr :
    ∀ l1 l2 : List RailEdge, l1.map scrubEdge = l2.map scrubEdge →
      (sortEdgesById l1).map scrubEdge = (sortEdgesById l2).map scrubEdge := by
  intro l1
  induction l1 with
  | nil =>
    intro l2 hl
    cases l2 with
    | nil => rfl
    | cons g gs => cases hl
  | cons g gs ih =>
    intro l2 hl
    cases l2 with
    | nil => cases hl
    | cons g2 gs2 =>
      have hg : scrubEdge g = scrubEdge g2 := by
        have hh := congrArg (fun l => l.head?) hl
        simpa using hh
      have hgs : gs.map scrubEdge = gs2.map scrubEdge := by
        have hh := congrArg (fun l => l.tail) hl
        simpa using hh
      rw [sortEdgesById, sortEdgesById]
      exact insertEdgeById_map_scrub_congr g g2 hg _ _ (ih gs2 hgs)

theorem candidateEdges_map_scrub_congr (m1 m2 : RailMap) (node : RailNode)
    (incomingEdgeId : String) (ie1 ie2 : RailEdge) (h : MapsOccEq m1 m2)
    (hie : scrubEdge ie1 = scrubEdge ie2) :
    (candidateEdges m1 node incomingEdgeId ie1).map scrubEdge =
      (candidateEdges m2 node incomingEdgeId ie2).map scrubEdge := by
  have hieF : ie1.fromNode = ie2.fromNode := by
    have hh := congrArg RailEdge.fromNode hie; exact hh
  unfold candidateEdges
  have hfix : filterEdges
      (fun e => ¬ (e.id = incomingEdgeId) ∧
        ((ie1.fromNode = node.id ∧ e.toNode = node.id) ∨
         (¬ ie1.fromNode = node.id ∧ e.fromNode = node.id))) (edgeValues m1) =
      filterEdges
      (fun e => ¬ (e.id = incomingEdgeId) ∧
        ((ie2.fromNode = node.id ∧ e.toNode = node.id) ∨
         (¬ ie2.fromNode = node.id ∧ e.fromNode = node.id))) (edgeValues m1) :=
    filterEdges_congr _ _ (fun e => by rw [hieF]) _
  rw [hfix]
  refine sortEdgesById_map_scrub_congr _ _ ?_
  refine filterEdges_map_scrub_congr _ (fun e => ?_) _ _ h.values_eq
  exact Iff.rfl

theorem resolveNextEdge_occEq (node? : Option RailNode) (m1 m2 : RailMap)
    (incomingEdgeId : String) (h : MapsOccEq m1 m2) :
    resolveNextEdge node? m1 incomingEdgeId = resolveNextEdge node? m2 incomingEdgeId := by
  cases node? with
  | none => rfl
  | some node =>
    unfold resolveNextEdge
    have hl := h.lookup_eq incomingEdgeId
    cases hl1 : lookupEdge m1 incomingEdgeId with
    | none =>
      rw [hl1] at hl
      cases hl2 : lookupEdge m2 incomingEdgeId with
      | none => rfl
      | some ie2 => rw [hl2] at hl; cases hl
    | some ie1 =>
      rw [hl1] at hl
      cases hl2 : lookupEdge m2 incomingEdgeId with
      | none => rw [hl2] at hl; cases hl
      | some ie2 =>
        rw [hl2] at hl
        have hie : scrubEdge ie1 = scrubEdge ie2 := Option.some.inj hl
        dsimp only
        have hc := candidateEdges_map_scrub_congr m1 m2 node incomingEdgeId ie1 ie2 h hie
        have hcid : (candidateEdges m1 node incomingEdgeId ie1).map (fun e => e.id) =
            (candidateEdges m2 node incomingEdgeId ie2).map (fun e => e.id) := by
          have h1 : ∀ l : List RailEdge, l.map (fun e : RailEdge => e.id) =
              (l.map scrubEdge).map (fun e : RailEdge => e.id) := by
            intro l
            rw [List.map_map]
            rfl
          rw [h1, hc, ← h1]
        cases hc1 : candidateEdges m1 node incomingEdgeId ie1 with
        | nil =>
          cases hc2 : candidateEdges m2 node incomingEdgeId ie2 with
          | nil => rfl
          | cons c2 cs2 => rw [hc1, hc2] at hcid; cases hcid
        | cons c1 cs1 =>
          cases hc2 : candidateEdges m2 node incomingEdgeId ie2 with
          | nil => rw [hc1, hc2] at hcid; cases hcid
          | cons c2 cs2 =>
            rw [hc1, hc2] at hcid
            have hcid1 : c1.id = c2.id := by
              have hh := congrArg (fun l => l.head?) hcid
              simpa using hh
            have hcids : cs1.map (fun e : RailEdge => e.id) =
                cs2.map (fun e : RailEdge => e.id) := by
              have hh := congrArg (fun l => l.tail) hcid
              simpa using hh
            cases hcs1 : cs1 with
            | nil =>
              cases hcs2 : cs2 with
              | nil =>
                dsimp only
                rw [hcid1]
              | cons d2 ds2 => rw [hcs1, hcs2] at hcids; cases hcids
            | cons d1 ds1 =>
              cases hcs2 : cs2 with
              | nil => rw [hcs1, hcs2] at hcids; cases hcids
              | cons d2 ds2 =>
                rw [hcs1, hcs2] at hcid
                dsimp only
                by_cases hsw : node.type = NodeType.switch
                · rw [if_pos hsw, if_pos hsw]
                  have hlen : (c1 :: d1 :: ds1).length = (c2 :: d2 :: ds2).length := by
                    have hh := congrArg List.length hcid
                    simpa using hh
                  have hget : ∀ i : ℕ, ((c1 :: d1 :: ds1).get? i).map (fun e => e.id) =
                      ((c2 :: d2 :: ds2).get? i).map (fun e => e.id) := by
                    intro i
                    rw [← List.get?_map, ← List.get?_map, hcid]
                  rw [hlen]
                  exact hget _
                · rw [if_neg hsw, if_neg hsw, hcid1]

theorem computeIntent_occEq (t : TrainPhysics) (m1 m2 : RailMap) (dt : ℚ)
    (tick : Int) (rnd : ℕ × ℕ) (h : MapsOccEq m1 m2) :
    computeIntent t m1 dt tick rnd = computeIntent t m2 dt tick rnd := by
  have hlookN : ∀ k, lookupNode m1 k = lookupNode m2 k := fun k => by
    unfold lookupNode
    rw [h.nodes_eq]
  have hres : ∀ (n? : Option RailNode) (inc : String),
      resolveNextEdge n? m1 inc = resolveNextEdge n? m2 inc :=
    fun n? inc => resolveNextEdge_occEq n? m1 m2 inc h
  unfold computeIntent
  by_cases hmv : t.state ≠ TrainState.moving ∨ t.speed = 0
  · rw [if_pos hmv, if_pos hmv]
  · rw [if_neg hmv, if_neg hmv]
    have hl := h.lookup_eq t.currentEdgeId
    cases hl1 : lookupEdge m1 t.currentEdgeId with
    | none =>
      cases hl2 : lookupEdge m2 t.currentEdgeId with
      | none => rfl
      | some e2 => rw [hl1, hl2] at hl; cases hl
    | some e1 =>
      cases hl2 : lookupEdge m2 t.currentEdgeId with
      | none => rw [hl1, hl2] at hl; cases hl
      | some e2 =>
        rw [hl1, hl2] at hl
        have hse : scrubEdge e1 = scrubEdge e2 := Option.some.inj hl
        have hlen : e1.length = e2.length := by
          have hh := congrArg RailEdge.length hse; exact hh
        have hplat : e1.isPlatform = e2.isPlatform := by
          have hh := congrArg RailEdge.isPlatform hse; exact hh
        have hto : e1.toNode = e2.toNode := by
          have hh := congrArg RailEdge.toNode hse; exact hh
        have hfrom : e1.fromNode = e2.fromNode := by
          have hh := congrArg RailEdge.fromNode hse; exact hh
        have hovf : overflowOf t dt e1 = overflowOf t dt e2 := by
          unfold overflowOf
          rw [hlen]
        dsimp only
        rw [hovf, hlen, hplat, hto, hfrom]
        simp only [hlookN, hres]

theorem tryResume_occEq (t : TrainPhysics) (m1 m2 : RailMap) (h : MapsOccEq m1 m2) :
    tryResume t m1 = tryResume t m2 := by
  have hlookN : ∀ k, lookupNode m1 k = lookupNode m2 k := fun k => by
    unfold lookupNode
    rw [h.nodes_eq]
  have hres : ∀ (n? : Option RailNode) (inc : String),
      resolveNextEdge n? m1 inc = resolveNextEdge n? m2 inc :=
    fun n? inc => resolveNextEdge_occEq n? m1 m2 inc h
  unfold tryResume
  have hl := h.lookup_eq t.currentEdgeId
  cases hl1 : lookupEdge m1 t.currentEdgeId with
  | none =>
    cases hl2 : lookupEdge m2 t.currentEdgeId with
    | none => rfl
    | some e2 => rw [hl1, hl2] at hl; cases hl
  | some e1 =>
    cases hl2 : lookupEdge m2 t.currentEdgeId with
    | none => rw [hl1, hl2] at hl; cases hl
    | some e2 =>
      rw [hl1, hl2] at hl
      have hse : scrubEdge e1 = scrubEdge e2 := Option.some.inj hl
      have hlen : e1.length = e2.length := by
        have hh := congrArg RailEdge.length hse; exact hh
      have hto : e1.toNode = e2.toNode := by
        have hh := congrArg RailEdge.toNode hse; exact hh
      have hfrom : e1.fromNode = e2.fromNode := by
        have hh := congrArg RailEdge.fromNode hse; exact hh
      dsimp only
      rw [hlen, hto, hfrom]
      simp only [hlookN, hres]

theorem phase1Train_occEq (m1 m2 : RailMap) (dt : ℚ) (tick : Int)
    (rnd : String → ℕ × ℕ) (t : TrainPhysics) (h : MapsOccEq m1 m2) :
    phase1Train m1 dt tick rnd t = phase1Train m2 dt tick rnd t := by
  unfold phase1Train
  by_cases hmv : t.state = TrainState.moving
  · rw [if_pos hmv, if_pos hmv]
    exact computeIntent_occEq t m1 m2 dt tick (rnd t.id) h
  · rw [if_neg hmv, if_neg hmv]
    exact tryResume_occEq t m1 m2 h

theorem commitOne_fst_occEq (t : TrainPhysics) (m1 m2 : RailMap)
    (h : ∀ k, (lookupEdge m1 k).map scrubEdge = (lookupEdge m2 k).map scrubEdge) :
    (commitOne m1 t).1 = (commitOne m2 t).1 := by
  cases hint : t.nextMoveIntent with
  | none => simp only [commitOne, hint]
  | some intent =>
    simp only [commitOne, hint]
    have hrel : ∀ k, (lookupEdge (releaseOld m1 t) k).map scrubEdge =
        (lookupEdge (releaseOld m2 t) k).map scrubEdge := fun k => by
      rw [lookupEdge_releaseOld_scrub, lookupEdge_releaseOld_scrub, h]
    unfold commitBody
    have hl := hrel (pushVisited t).currentEdgeId
    cases hl1 : lookupEdge (releaseOld m1 t) (pushVisited t).currentEdgeId with
    | none =>
      cases hl2 : lookupEdge (releaseOld m2 t) (pushVisited t).currentEdgeId with
      | none => rfl
      | some cur2 => rw [hl1, hl2] at hl; cases hl
    | some cur1 =>
      cases hl2 : lookupEdge (releaseOld m2 t) (pushVisited t).currentEdgeId with
      | none => rw [hl1, hl2] at hl; cases hl
      | some cur2 =>
        rw [hl1, hl2] at hl
        have hscur : scrubEdge cur1 = scrubEdge cur2 := Option.some.inj hl
        have hcto : cur1.toNode = cur2.toNode := by
          have hh := congrArg RailEdge.toNode hscur; exact hh
        have hcfrom : cur1.fromNode = cur2.fromNode := by
          have hh := congrArg RailEdge.fromNode hscur; exact hh
        have hlt := hrel intent.targetEdgeId
        cases hlt1 : lookupEdge (releaseOld m1 t) intent.targetEdgeId with
        | none =>
          cases hlt2 : lookupEdge (releaseOld m2 t) intent.targetEdgeId with
          | none => rfl
          | some ne2 => rw [hlt1, hlt2] at hlt; cases hlt
        | some ne1 =>
          cases hlt2 : lookupEdge (releaseOld m2 t) intent.targetEdgeId with
          | none => rw [hlt1, hlt2] at hlt; cases hlt
          | some ne2 =>
            rw [hlt1, hlt2] at hlt
            have hsne : scrubEdge ne1 = scrubEdge ne2 := Option.some.inj hlt
            have hnf : ne1.fromNode = ne2.fromNode := by
              have hh := congrArg RailEdge.fromNode hsne; exact hh
            have hnt : ne1.toNode = ne2.toNode := by
              have hh := congrArg RailEdge.toNode hsne; exact hh
            have hnl : ne1.length = ne2.length := by
              have hh := congrArg RailEdge.length hsne; exact hh
            dsimp only
            unfold commitDirPos
            rw [hcto, hcfrom, hnf, hnt, hnl]

theorem update_eq (trains : List TrainPhysics) (m : RailMap) (dt : ℚ) (currentTick : Int)
    (rnd : String → ℕ × ℕ) :
    update trains m dt currentTick rnd =
      match detectPhysicalCollisions (phase1List trains m dt currentTick rnd) with
      | some p => Except.error p
      | none =>
        match resolveConflicts (phase1List trains m dt currentTick rnd) with
        | some p => Except.error p
        | none => Except.ok (commitUpdates (phase1List trains m dt currentTick rnd) m) := rfl

theorem resolveConflictsAux_none_not_claimed (l : List TrainPhysics) :
    ∀ claims, resolveConflictsAux claims l = none →
      ∀ t ∈ l, ∀ it, t.nextMoveIntent = some it →
        lookupEntry it.targetEdgeId claims = none := by
  induction l with
  | nil => intro claims _ t ht; cases ht
  | cons t rest ih =>
    intro claims hres u hu it hit
    rcases List.mem_cons.mp hu with hu | hu
    · subst hu
      cases hlook : lookupEntry it.targetEdgeId claims with
      | none => rfl
      | some prev => simp only [resolveConflictsAux, hit, hlook] at hres; cases hres
    · cases hint : t.nextMoveIntent with
      | none =>
        simp only [resolveConflictsAux, hint] at hres
        exact ih claims hres u hu it hit
      | some it0 =>
        cases hlook : lookupEntry it0.targetEdgeId claims with
        | some prev => simp only [resolveConflictsAux, hint, hlook] at hres; cases hres
        | none =>
          simp only [resolveConflictsAux, hint, hlook] at hres
          have h2 := ih _ hres u hu it hit
          rw [lookupEntry] at h2
          split at h2
          · cases h2
          · exact h2

theorem resolveConflictsAux_none_no_pair (l : List TrainPhysics) :
    ∀ claims, resolveConflictsAux claims l = none →
      ∀ i j ti tj iti itj, i < j → l.get? i = some ti → l.get? j = some tj →
        ti.nextMoveIntent = some iti → tj.nextMoveIntent = some itj →
        iti.targetEdgeId ≠ itj.targetEdgeId := by
  induction l with
  | nil => intro claims _ i j ti tj iti itj _ hi; simp at hi
  | cons t rest ih =>
    intro claims hres i j ti tj iti itj hij hi hj hiti hitj heq
    match i, j with
    | _, 0 => omega
    | 0, j + 1 =>
      have hti : ti = t := by simpa using hi.symm
      subst hti
      cases hlook : lookupEntry iti.targetEdgeId claims with
      | some prev => simp only [resolveConflictsAux, hiti, hlook] at hres; cases hres
      | none =>
        simp only [resolveConflictsAux, hiti, hlook] at hres
        have htj : tj ∈ rest := List.get?_mem (by simpa using hj)
        have := resolveConflictsAux_none_not_claimed rest _ hres tj htj itj hitj
        rw [lookupEntry] at this
        rw [← heq] at this
        simp at this
    | i + 1, j + 1 =>
      have hres' : ∃ claims', resolveConflictsAux claims' rest = none := by
        cases hint : t.nextMoveIntent with
        | none => simp only [resolveConflictsAux, hint] at hres; exact ⟨claims, hres⟩
        | some it0 =>
          cases hlook : lookupEntry it0.targetEdgeId claims with
          | some prev => simp only [resolveConflictsAux, hint, hlook] at hres; cases hres
          | none => simp only [resolveConflictsAux, hint, hlook] at hres; exact ⟨_, hres⟩
      obtain ⟨claims', hres'⟩ := hres'
      exact ih claims' hres' i j ti tj iti itj (by omega) (by simpa using hi)
        (by simpa using hj) hiti hitj heq

theorem resolveConflictsAux_some_spec (l : List TrainPhysics) :
    ∀ (pre : List TrainPhysics) (claims : List (String × String)) (a b : String),
      (∀ k v, lookupEntry k claims = some v →
        ∃ u ∈ pre, u.id = v ∧ ∃ it, u.nextMoveIntent = some it ∧ it.targetEdgeId = k) →
      resolveConflictsAux claims l = some (a, b) →
      ∃ u v itu itv, [u, v].Sublist (pre ++ l) ∧ u.nextMoveIntent = some itu ∧
        v.nextMoveIntent = some itv ∧ itu.targetEdgeId = itv.targetEdgeId ∧
        b = u.id ∧ a = v.id := by
  induction l with
  | nil => intro pre claims a b _ hres; cases hres
  | cons t rest ih =>
    intro pre claims a b hclaims hres
    cases hint : t.nextMoveIntent with
    | none =>
      simp only [resolveConflictsAux, hint] at hres
      have := ih (pre ++ [t]) claims a b
        (fun k v hk => by
          obtain ⟨u, hu, h⟩ := hclaims k v hk
          exact ⟨u, List.mem_append_left _ hu, h⟩) hres
      simpa using this
    | some it =>
      cases hlook : lookupEntry it.targetEdgeId claims with
      | some prev =>
        simp only [resolveConflictsAux, hint, hlook] at hres
        obtain ⟨ha, hb⟩ : t.id = a ∧ prev = b := by
          constructor <;> [exact congrArg Prod.fst (Option.some.inj hres);
            exact congrArg Prod.snd (Option.some.inj hres)]
        obtain ⟨u, hu, huid, itu, hitu, htgt⟩ := hclaims it.targetEdgeId prev hlook
        refine ⟨u, t, itu, it, ?_, hitu, hint, by rw [htgt], by rw [← hb, huid], ha.symm⟩
        have h1 : [u].Sublist pre := (List.singleton_sublist).mpr hu
        have h2 : [t].Sublist (t :: rest) := (List.singleton_sublist).mpr (List.mem_cons_self t rest)
        simpa using List.Sublist.append h1 h2
      | none =>
        simp only [resolveConflictsAux, hint, hlook] at hres
        have := ih (pre ++ [t]) ((it.targetEdgeId, t.id) :: claims) a b
          (fun k v hk => by
            rw [lookupEntry] at hk
            by_cases hkt : it.targetEdgeId = k
            · rw [if_pos hkt] at hk
              refine ⟨t, List.mem_append_right _ (List.mem_singleton.mpr rfl),
                (Option.some.inj hk), it, hint, hkt⟩
            · rw [if_neg hkt] at hk
              obtain ⟨u, hu, h⟩ := hclaims k v hk
              exact ⟨u, List.mem_append_left _ hu, h⟩) hres
        simpa using this

theorem handlePassengerLogic_preserves (t : TrainPhysics) :
    (handlePassengerLogic t).state = t.state ∧
    (handlePassengerLogic t).speed = t.speed ∧
    (handlePassengerLogic t).position = t.position ∧
    (handlePassengerLogic t).nextMoveIntent = t.nextMoveIntent ∧
    (handlePassengerLogic t).currentEdgeId = t.currentEdgeId ∧
    (handlePassengerLogic t).direction = t.direction ∧
    ((t.passengerState = some PassengerState.BOARDING ∨
        t.passengerState = some PassengerState.READY) →
      ((handlePassengerLogic t).passengerState = some PassengerState.BOARDING ∨
        (handlePassengerLogic t).passengerState = some PassengerState.READY)) := by
  unfold handlePassengerLogic
  split
  · exact ⟨rfl, rfl, rfl, rfl, rfl, rfl, fun h => h⟩
  · split
    · exact ⟨rfl, rfl, rfl, rfl, rfl, rfl, fun _ => Or.inr rfl⟩
    · exact ⟨rfl, rfl, rfl, rfl, rfl, rfl, fun h => h⟩

theorem tryResume_blocked (t : TrainPhysics) (m : RailMap)
    (h : t.passengerState = some PassengerState.BOARDING ∨
      t.passengerState = some PassengerState.READY) :
    tryResume t m = t := by
  unfold tryResume
  cases lookupEdge m t.currentEdgeId with
  | none => rfl
  | some e =>
    dsimp only
    rw [if_pos h]

theorem commitUpdates_get?_of_no_intent (l : List TrainPhysics) :
    ∀ (m : RailMap) (i : ℕ) (t : TrainPhysics), l.get? i = some t →
      t.nextMoveIntent = none → ((commitUpdates l m).1).get? i = some t := by
  induction l with
  | nil => intro m i t hg; cases i <;> cases hg
  | cons u rest ih =>
    intro m i t hg hni
    match i with
    | 0 =>
      have hu : u = t := by simpa using hg
      subst hu
      have hc : commitOne m u = (u, m) := by
        simp only [commitOne, hni]
      simp only [commitUpdates, hc]
      rfl
    | i + 1 =>
      simp only [commitUpdates]
      exact ih _ i t (by simpa using hg) hni

/-- One completed tick keeps a stopped boarding/ready intent-free train
stopped, in place, intent-free and in a boarding/ready passenger state. -/
theorem stopped_passenger_train_fixed_tick
    (trains : List TrainPhysics) (m : RailMap) (dt : ℚ) (tick : Int)
    (rnd : String → ℕ × ℕ) (i : ℕ) (t : TrainPhysics)
    (hg : trains.get? i = some t) (hst : t.state = TrainState.stopped)
    (hps : t.passengerState = some PassengerState.BOARDING ∨
      t.passengerState = some PassengerState.READY)
    (hni : t.nextMoveIntent = none)
    (ts' : List TrainPhysics) (m' : RailMap)
    (hok : update trains m dt tick rnd = Except.ok (ts', m')) :
    ∃ t', ts'.get? i = some t' ∧ t'.state = TrainState.stopped ∧
      t'.position = t.position ∧ t'.speed = t.speed ∧
      t'.currentEdgeId = t.currentEdgeId ∧
      (t'.passengerState = some PassengerState.BOARDING ∨
        t'.passengerState = some PassengerState.READY) ∧
      t'.nextMoveIntent = none := by
  obtain ⟨hS, hV, hP, hI, hC, _, hPS⟩ := handlePassengerLogic_preserves t
  have hstop0 : (handlePassengerLogic t).state = TrainState.stopped := by rw [hS, hst]
  have ht1 : phase1Train m dt tick rnd (handlePassengerLogic t) = handlePassengerLogic t := by
    unfold phase1Train
    rw [if_neg (by rw [hstop0]; intro hc; cases hc)]
    exact tryResume_blocked _ m (hPS hps)
  have hg1 : (phase1List trains m dt tick rnd).get? i = some (handlePassengerLogic t) := by
    unfold phase1List
    rw [List.get?_map, List.get?_map, hg]
    simp [ht1]
  have hcm : commitUpdates (phase1List trains m dt tick rnd) m = (ts', m') := by
    rw [update_eq] at hok
    cases hd : detectPhysicalCollisions (phase1List trains m dt tick rnd) with
    | some p => rw [hd] at hok; cases hok
    | none =>
      rw [hd] at hok
      cases hc : resolveConflicts (phase1List trains m dt tick rnd) with
      | some p => rw [hc] at hok; cases hok
      | none =>
        rw [hc] at hok
        exact Option.some.inj (congrArg Except.toOption hok)
  have hni0 : (handlePassengerLogic t).nextMoveIntent = none := by rw [hI, hni]
  have := commitUpdates_get?_of_no_intent (phase1List trains m dt tick rnd) m i
    (handlePassengerLogic t) hg1 hni0
  rw [hcm] at this
  exact ⟨handlePassengerLogic t, this, hstop0, hP, hV, hC, hPS hps, hni0⟩

theorem tryResume_fields (t : TrainPhysics) (m : RailMap) :
    (tryResume t m).position = t.position ∧
    (tryResume t m).currentEdgeId = t.currentEdgeId ∧
    (tryResume t m).nextMoveIntent = t.nextMoveIntent := by
  unfold tryResume
  refine ⟨?_, ?_, ?_⟩ <;> (repeat' split) <;> rfl

/-- All positions `computeIntent` can produce under the basic state
invariants: either no intent is registered and the position stays within
the current edge, or an intent is registered, the position is untouched,
and the registered overflow is nonnegative and at most `speed · dt`. -/
theorem computeIntent_position_cases (t : TrainPhysics) (m : RailMap) (dt : ℚ)
    (tick : Int) (rnd : ℕ × ℕ) (e : RailEdge)
    (he : lookupEdge m t.currentEdgeId = some e)
    (hdir : t.direction = 1 ∨ t.direction = -1)
    (hsp : 0 ≤ t.speed) (hdt : 0 ≤ dt)
    (hpos0 : 0 ≤ t.position) (hpos1 : t.position ≤ e.length)
    (hni : t.nextMoveIntent = none) :
    ((computeIntent t m dt tick rnd).nextMoveIntent = none ∧
      (computeIntent t m dt tick rnd).currentEdgeId = t.currentEdgeId ∧
      0 ≤ (computeIntent t m dt tick rnd).position ∧
      (computeIntent t m dt tick rnd).position ≤ e.length) ∨
    (∃ nid, (computeIntent t m dt tick rnd).nextMoveIntent =
        some ⟨nid, overflowOf t dt e⟩ ∧
      (computeIntent t m dt tick rnd).currentEdgeId = t.currentEdgeId ∧
      (computeIntent t m dt tick rnd).position = t.position ∧
      0 ≤ overflowOf t dt e ∧ overflowOf t dt e ≤ t.speed * dt) := by
  have heff : effectiveDir t = t.direction := by
    unfold effectiveDir
    rcases hdir with h | h <;> rw [h] <;> decide
  have hlen0 : (0 : ℚ) ≤ e.length := le_trans hpos0 hpos1
  unfold computeIntent
  split
  · exact Or.inl ⟨hni, rfl, hpos0, hpos1⟩
  · rename_i hmv
    simp only [he]
    by_cases harr : (effectiveDir t = 1 ∧ tentativePos t dt ≥ e.length) ∨
        (effectiveDir t = -1 ∧ tentativePos t dt ≤ 0)
    · rw [if_pos harr]
      have hovf0 : 0 ≤ overflowOf t dt e := by
        unfold overflowOf
        rcases harr with ⟨hd, hge⟩ | ⟨hd, hle⟩
        · rw [if_pos hd]
          linarith
        · rw [if_neg (by rw [hd]; decide)]
          exact abs_nonneg _
      have hovf1 : overflowOf t dt e ≤ t.speed * dt := by
        have hsd : 0 ≤ t.speed * dt := mul_nonneg hsp hdt
        unfold overflowOf tentativePos
        rcases harr with ⟨hd, hge⟩ | ⟨hd, hle⟩
        · rw [if_pos hd, hd]
          push_cast
          linarith
        · rw [if_neg (by rw [hd]; decide), hd]
          rw [abs_of_nonpos (by unfold tentativePos at hle; rw [hd] at hle; push_cast at hle ⊢; linarith)]
          push_cast
          linarith
      split
      · exact Or.inl ⟨hni, rfl, by positivity, by split <;> [exact le_refl _; exact hlen0]⟩
      · split
        · exact Or.inl ⟨hni, rfl, by split <;> [exact hlen0; exact le_refl _],
            by split <;> [exact le_refl _; exact hlen0]⟩
        · split
          · exact Or.inl ⟨hni, rfl, hpos0, hpos1⟩
          · split
            · exact Or.inl ⟨hni, rfl, by split <;> [exact hlen0; exact le_refl _],
                by split <;> [exact le_refl _; exact hlen0]⟩
            · split
              · exact Or.inl ⟨hni, rfl, by split <;> [exact hlen0; exact le_refl _],
                  by split <;> [exact le_refl _; exact hlen0]⟩
              · rename_i nid _
                exact Or.inr ⟨nid, rfl, rfl, rfl, hovf0, hovf1⟩
    · rw [if_neg harr]
      have hsd : (0 : ℚ) ≤ t.speed * dt := mul_nonneg hsp hdt
      refine Or.inl ⟨rfl, rfl, ?_, ?_⟩
      · show 0 ≤ tentativePos t dt
        rcases hdir with h | h
        · have hd1 : effectiveDir t = 1 := by rw [heff, h]
          unfold tentativePos
          rw [hd1]
          push_cast
          linarith
        · have hd1 : effectiveDir t = -1 := by rw [heff, h]
          have hgt : ¬ tentativePos t dt ≤ 0 := fun hle => harr (Or.inr ⟨hd1, hle⟩)
          linarith [lt_of_not_le hgt]
      · show tentativePos t dt ≤ e.length
        rcases hdir with h | h
        · have hd1 : effectiveDir t = 1 := by rw [heff, h]
          have hlt : ¬ tentativePos t dt ≥ e.length := fun hge => harr (Or.inl ⟨hd1, hge⟩)
          linarith [lt_of_not_le hlt]
        · have hd1 : effectiveDir t = -1 := by rw [heff, h]
          unfold tentativePos
          rw [hd1]
          push_cast
          linarith

theorem lookupEntry_mem_values {β : Type} (k : String) (l : List (String × β)) (v : β)
    (h : lookupEntry k l = some v) : v ∈ l.map Prod.snd := by
  induction l with
  | nil => cases h
  | cons p rest ih =>
    rw [lookupEntry] at h
    split at h
    · exact List.mem_cons.mpr (Or.inl (Option.some.inj h).symm)
    · exact List.mem_cons.mpr (Or.inr (ih h))

theorem commitOne_scrub (m : RailMap) (t : TrainPhysics) (k : String) :
    (lookupEdge (commitOne m t).2 k).map scrubEdge = (lookupEdge m k).map scrubEdge := by
  unfold commitOne
  cases hint : t.nextMoveIntent with
  | none => rfl
  | some intent =>
    dsimp only
    unfold commitBody
    cases h1 : lookupEdge (releaseOld m t) (pushVisited t).currentEdgeId with
    | none => exact lookupEdge_releaseOld_scrub m t k
    | some cur =>
      dsimp only
      cases h2 : lookupEdge (releaseOld m t) intent.targetEdgeId with
      | none => exact lookupEdge_releaseOld_scrub m t k
      | some ne =>
        dsimp only
        rw [lookupEdge_setOccupied_scrub]
        exact lookupEdge_releaseOld_scrub m t k

theorem commitUpdates_scrub (l : List TrainPhysics) :
    ∀ (m : RailMap) (k : String),
      (lookupEdge (commitUpdates l m).2 k).map scrubEdge = (lookupEdge m k).map scrubEdge := by
  induction l with
  | nil => intro m k; rfl
  | cons t rest ih =>
    intro m k
    show (lookupEdge (commitUpdates rest (commitOne m t).2).2 k).map scrubEdge = _
    rw [ih (commitOne m t).2 k, commitOne_scrub]

theorem commitUpdates_get? (l : List TrainPhysics) :
    ∀ (m : RailMap) (i : ℕ) (t : TrainPhysics), l.get? i = some t →
      ∃ mi, ((commitUpdates l m).1).get? i = some (commitOne mi t).1 ∧
        (∀ k, (lookupEdge mi k).map scrubEdge = (lookupEdge m k).map scrubEdge) := by
  induction l with
  | nil => intro m i t hg; cases i <;> cases hg
  | cons u rest ih =>
    intro m i t hg
    match i with
    | 0 =>
      have hu : u = t := by simpa using hg
      subst hu
      exact ⟨m, rfl, fun k => rfl⟩
    | i + 1 =>
      obtain ⟨mi, hgi, hsc⟩ := ih (commitOne m u).2 i t (by simpa using hg)
      exact ⟨mi, hgi, fun k => by rw [hsc k, commitOne_scrub]⟩

/-- Commit keeps the committed position inside the (possibly new) current
edge, provided any registered overflow is nonnegative and bounded by the
target edge's length. -/
theorem commitOne_position_in_range (mi m : RailMap) (t1 : TrainPhysics) (e : RailEdge)
    (hscrub : ∀ k, (lookupEdge mi k).map scrubEdge = (lookupEdge m k).map scrubEdge)
    (he : lookupEdge m t1.currentEdgeId = some e)
    (hpos0 : 0 ≤ t1.position) (hpos1 : t1.position ≤ e.length)
    (hovf : ∀ intent, t1.nextMoveIntent = some intent →
      0 ≤ intent.overflowDistance ∧
      (∀ ne, lookupEdge m intent.targetEdgeId = some ne →
        intent.overflowDistance ≤ ne.length)) :
    ∃ e', lookupEdge m (commitOne mi t1).1.currentEdgeId = some e' ∧
      0 ≤ (commitOne mi t1).1.position ∧ (commitOne mi t1).1.position ≤ e'.length := by
  cases hint : t1.nextMoveIntent with
  | none =>
    have hc : commitOne mi t1 = (t1, mi) := by simp only [commitOne, hint]
    rw [hc]
    exact ⟨e, he, hpos0, hpos1⟩
  | some intent =>
    obtain ⟨hovf0, hovfb⟩ := hovf intent hint
    have hrs : ∀ k, (lookupEdge (releaseOld mi t1) k).map scrubEdge =
        (lookupEdge m k).map scrubEdge := fun k => by
      rw [lookupEdge_releaseOld_scrub, hscrub]
    obtain ⟨cur1, hcur1, hscur⟩ := lookupEdge_scrub_transfer (releaseOld mi t1) m
      t1.currentEdgeId e hrs he
    have hp1c : (pushVisited t1).currentEdgeId = t1.currentEdgeId := rfl
    cases htgt1 : lookupEdge (releaseOld mi t1) intent.targetEdgeId with
    | none =>
      have hc2 : commitOne mi t1 =
          ({ pushVisited t1 with state := TrainState.stopped, nextMoveIntent := none },
            releaseOld mi t1) := by
        simp only [commitOne, hint, commitBody, hp1c, hcur1, htgt1]
      rw [hc2]
      exact ⟨e, he, hpos0, hpos1⟩
    | some ne1 =>
      have : ∃ ne, lookupEdge m intent.targetEdgeId = some ne ∧
          scrubEdge ne1 = scrubEdge ne := by
        have h := hrs intent.targetEdgeId
        rw [htgt1] at h
        cases hl : lookupEdge m intent.targetEdgeId with
        | none => rw [hl] at h; cases h
        | some ne => rw [hl] at h; exact ⟨ne, rfl, Option.some.inj h⟩
      obtain ⟨ne, hne, hsne⟩ := this
      have hlen : ne1.length = ne.length := by
        have h := congrArg RailEdge.length hsne; exact h
      have hb : intent.overflowDistance ≤ ne1.length := by
        rw [hlen]; exact hovfb ne hne
      have hc2 : commitOne mi t1 =
          ({ commitDirPos (pushVisited t1) intent ne1
              (if effectiveDir (pushVisited t1) = 1 then cur1.toNode else cur1.fromNode) with
              currentEdgeId := intent.targetEdgeId
              path := consumePath (pushVisited t1).path intent.targetEdgeId
              nextMoveIntent := none },
            setOccupied (releaseOld mi t1) intent.targetEdgeId
              (some (pushVisited t1).id)) := by
        simp only [commitOne, hint, commitBody, hp1c, hcur1, htgt1]
      rw [hc2]
      refine ⟨ne, hne, ?_, ?_⟩
      · show (0 : ℚ) ≤ (commitDirPos (pushVisited t1) intent ne1 _).position
        unfold commitDirPos
        split <;>
        · split
          · exact hovf0
          · split
            · dsimp only
              linarith
            · exact hovf0
      · show (commitDirPos (pushVisited t1) intent ne1 _).position ≤ ne.length
        unfold commitDirPos
        rw [← hlen]
        split <;>
        · split
          · exact hb
          · split
            · dsimp only
              linarith
            · exact hb

theorem commitUpdates_fst_occEq (l : List TrainPhysics) :
    ∀ m1 m2 : RailMap,
      (∀ k, (lookupEdge m1 k).map scrubEdge = (lookupEdge m2 k).map scrubEdge) →
      (commitUpdates l m1).1 = (commitUpdates l m2).1 := by
  induction l with
  | nil => intro m1 m2 _; rfl
  | cons t rest ih =>
    intro m1 m2 h
    show (commitOne m1 t).1 :: (commitUpdates rest (commitOne m1 t).2).1 =
      (commitOne m2 t).1 :: (commitUpdates rest (commitOne m2 t).2).1
    rw [commitOne_fst_occEq t m1 m2 h,
      ih (commitOne m1 t).2 (commitOne m2 t).2 (fun k => by
        rw [commitOne_scrub, commitOne_scrub, h])]

end PhysicsEngine

namespace AppVue

theorem filterEdges_mem (p : RailEdge → Prop) [DecidablePred p] (l : List RailEdge)
    (a : RailEdge) : a ∈ filterEdges p l ↔ a ∈ l ∧ p a := by
  induction l with
  | nil => simp [filterEdges]
  | cons e es ih =>
    by_cases hp : p e
    · rw [filterEdges, if_pos hp]
      constructor
      · intro ha
        rcases List.mem_cons.mp ha with ha | ha
        · exact ⟨List.mem_cons.mpr (Or.inl ha), ha ▸ hp⟩
        · obtain ⟨h1, h2⟩ := ih.mp ha
          exact ⟨List.mem_cons.mpr (Or.inr h1), h2⟩
      · rintro ⟨ha, hpa⟩
        rcases List.mem_cons.mp ha with ha | ha
        · exact List.mem_cons.mpr (Or.inl ha)
        · exact List.mem_cons.mpr (Or.inr (ih.mpr ⟨ha, hpa⟩))
    · rw [filterEdges, if_neg hp]
      constructor
      · intro ha
        obtain ⟨h1, h2⟩ := ih.mp ha
        exact ⟨List.mem_cons.mpr (Or.inr h1), h2⟩
      · rintro ⟨ha, hpa⟩
        rcases List.mem_cons.mp ha with ha | ha
        · exact absurd (ha ▸ hpa) hp
        · exact ih.mpr ⟨ha, hpa⟩

theorem isEdgePath_append (m : RailMap) (s : String) :
    ∀ (p : List String) (n : String), isEdgePath m s p n →
      ∀ e ∈ edgeValues m, e.fromNode = n → isEdgePath m s (p ++ [e.id]) e.toNode := by
  suffices h : ∀ (p : List String) (s n : String), isEdgePath m s p n →
      ∀ e ∈ edgeValues m, e.fromNode = n → isEdgePath m s (p ++ [e.id]) e.toNode by
    intro p n hp
    exact h p s n hp
  intro p
  induction p with
  | nil =>
    intro s n hp e he hef
    obtain rfl : s = n := hp
    exact ⟨e, he, rfl, hef, rfl⟩
  | cons eid rest ih =>
    intro s n hp e he hef
    obtain ⟨e0, he0, hid0, hf0, hrest⟩ := hp
    exact ⟨e0, he0, hid0, hf0, ih e0.toNode n hrest e he hef⟩

theorem isEdgePath_closure (m : RailMap) (v : Finset String)
    (hcl : ∀ n ∈ v, ∀ ed ∈ edgeValues m, ed.fromNode = n → ed.toNode ∈ v) :
    ∀ (p : List String) (x y : String), isEdgePath m x p y → x ∈ v → y ∈ v := by
  intro p
  induction p with
  | nil =>
    intro x y hp hx
    obtain rfl : x = y := hp
    exact hx
  | cons eid rest ih =>
    intro x y hp hx
    obtain ⟨e, he, _, hef, hrest⟩ := hp
    exact ih e.toNode y hrest (hcl x hx e he hef)

theorem pushSuccessors_spec (m : RailMap) (path : List String) :
    ∀ (es : List RailEdge) (visited : Finset String),
      (pushSuccessors path es visited).2 =
        visited ∪ ((pushSuccessors path es visited).1.map Prod.fst).toFinset ∧
      ((pushSuccessors path es visited).1.map Prod.fst).Nodup ∧
      (∀ pr ∈ (pushSuccessors path es visited).1,
        pr.1 ∉ visited ∧ ∃ e ∈ es, e.toNode = pr.1 ∧ pr.2 = path ++ [e.id]) ∧
      (∀ e ∈ es, e.toNode ∈ (pushSuccessors path es visited).2) ∧
      visited ⊆ (pushSuccessors path es visited).2 := by
  intro es
  induction es with
  | nil =>
    intro visited
    refine ⟨by simp [pushSuccessors], List.nodup_nil, ?_, ?_, fun x hx => hx⟩
    · intro pr hpr; cases hpr
    · intro e he; cases he
  | cons e es ih =>
    intro visited
    by_cases hv : e.toNode ∈ visited
    · obtain ⟨ha, hb, hc, hd, he⟩ := ih visited
      rw [pushSuccessors, if_pos hv]
      refine ⟨ha, hb, ?_, ?_, he⟩
      · intro pr hpr
        obtain ⟨h1, e2, h2, h3, h4⟩ := hc pr hpr
        exact ⟨h1, e2, List.mem_cons.mpr (Or.inr h2), h3, h4⟩
      · intro e2 he2
        rcases List.mem_cons.mp he2 with h | h
        · subst h
          exact he hv
        · exact hd e2 h
    · obtain ⟨ha, hb, hc, hd, he⟩ := ih (insert e.toNode visited)
      rw [pushSuccessors, if_neg hv]
      dsimp only
      constructor
      · rw [List.map_cons, List.toFinset_cons, ha]
        ext x
        simp only [Finset.mem_union, Finset.mem_insert, List.mem_toFinset]
        tauto
      constructor
      · rw [List.map_cons]
        refine List.nodup_cons.mpr ⟨?_, hb⟩
        intro hmem
        obtain ⟨pr, hpr, hpr1⟩ := List.mem_map.mp hmem
        obtain ⟨h1, _⟩ := hc pr hpr
        exact h1 (hpr1 ▸ Finset.mem_insert_self e.toNode visited)
      constructor
      · intro pr hpr
        rcases List.mem_cons.mp hpr with h | h
        · subst h
          exact ⟨hv, e, List.mem_cons.mpr (Or.inl rfl), rfl, rfl⟩
        · obtain ⟨h1, e2, h2, h3, h4⟩ := hc pr h
          refine ⟨fun hmem => h1 (Finset.mem_insert.mpr (Or.inr hmem)),
            e2, List.mem_cons.mpr (Or.inr h2), h3, h4⟩
      constructor
      · intro e2 he2
        rcases List.mem_cons.mp he2 with h | h
        · subst h
          exact he (Finset.mem_insert_self e2.toNode visited)
        · exact hd e2 h
      · intro x hx
        exact he (Finset.mem_insert.mpr (Or.inr hx))

/-- New queue entries produced by expanding `node` carry valid paths. -/
theorem pushSuccessors_entries_valid (m : RailMap) (s node : String)
    (path : List String) (v : Finset String) (hpath : isEdgePath m s path node) :
    ∀ pr ∈ (pushSuccessors path
        (filterEdges (fun e => e.fromNode = node) (edgeValues m)) v).1,
      isEdgePath m s pr.2 pr.1 := by
  intro pr hpr
  obtain ⟨_, e, he, h3, h4⟩ := (pushSuccessors_spec m path _ v).2.2.1 pr hpr
  obtain ⟨hev, hef⟩ := (filterEdges_mem _ _ e).mp he
  rw [h4, ← h3]
  exact isEdgePath_append m s path node hpath e hev hef

/-- Soundness: a non-empty result of the search loop is a valid directed
path from the start to the target. -/
theorem bfsAux_sound (m : RailMap) (s target : String) :
    ∀ (fuel : ℕ) (q : List (String × List String)) (v : Finset String)
      (pops enqs : List String),
      (∀ pr ∈ q, isEdgePath m s pr.2 pr.1) →
      (bfsAux m target fuel q v pops enqs).1 = [] ∨
        isEdgePath m s (bfsAux m target fuel q v pops enqs).1 target := by
  intro fuel
  induction fuel with
  | zero => intro q v pops enqs _; exact Or.inl rfl
  | succ n ih =>
    intro q v pops enqs hq
    cases q with
    | nil => exact Or.inl rfl
    | cons hd rest =>
      obtain ⟨node, path⟩ := hd
      rw [bfsAux]
      by_cases ht : node = target
      · rw [if_pos ht]
        refine Or.inr ?_
        have h := hq (node, path) (List.mem_cons_self _ _)
        exact ht ▸ h
      · rw [if_neg ht]
        dsimp only
        apply ih
        intro pr hpr
        rcases List.mem_append.mp hpr with h | h
        · exact hq pr (List.mem_cons.mpr (Or.inr h))
        · exact pushSuccessors_entries_valid m s node path v
            (hq (node, path) (List.mem_cons_self _ _)) pr h

/-- Completeness: under the loop invariants, if the target is reachable
the search does not come back empty-handed but with a valid path. -/
theorem bfsAux_complete (m : RailMap) (s target : String) :
    ∀ (fuel : ℕ) (q : List (String × List String)) (v : Finset String)
      (pops enqs : List String),
      q.length + (bfsUniv m s \ v).card ≤ fuel →
      (∀ pr ∈ q, isEdgePath m s pr.2 pr.1) →
      (∀ pr ∈ q, pr.1 ∈ v) →
      v ⊆ bfsUniv m s →
      s ∈ v →
      (∀ n ∈ v, (∀ pr ∈ q, pr.1 ≠ n) →
        ∀ ed ∈ edgeValues m, ed.fromNode = n → ed.toNode ∈ v) →
      (∀ n ∈ v, (∀ pr ∈ q, pr.1 ≠ n) → n ≠ target) →
      Reachable m s target →
      isEdgePath m s (bfsAux m target fuel q v pops enqs).1 target := by
  intro fuel
  induction fuel with
  | zero =>
    intro q v pops enqs hfuel hq hqv hvu hs hcl htg hreach
    have hq0 : q = [] := by
      cases q with
      | nil => rfl
      | cons a as => simp at hfuel
    subst hq0
    obtain ⟨p, hp⟩ := hreach
    have hclosed : ∀ n ∈ v, ∀ ed ∈ edgeValues m, ed.fromNode = n → ed.toNode ∈ v :=
      fun n hn => hcl n hn (fun pr hpr => absurd hpr (List.not_mem_nil pr))
    have htv : target ∈ v := isEdgePath_closure m v hclosed p s target hp hs
    exact absurd rfl (htg target htv (fun pr hpr => absurd hpr (List.not_mem_nil pr)))
  | succ n ih =>
    intro q v pops enqs hfuel hq hqv hvu hs hcl htg hreach
    cases q with
    | nil =>
      obtain ⟨p, hp⟩ := hreach
      have hclosed : ∀ n2 ∈ v, ∀ ed ∈ edgeValues m, ed.fromNode = n2 → ed.toNode ∈ v :=
        fun n2 hn => hcl n2 hn (fun pr hpr => absurd hpr (List.not_mem_nil pr))
      have htv : target ∈ v := isEdgePath_closure m v hclosed p s target hp hs
      exact absurd rfl (htg target htv (fun pr hpr => absurd hpr (List.not_mem_nil pr)))
    | cons hd rest =>
      obtain ⟨node, path⟩ := hd
      rw [bfsAux]
      by_cases ht : node = target
      · rw [if_pos ht]
        have h := hq (node, path) (List.mem_cons_self _ _)
        exact ht ▸ h
      · rw [if_neg ht]
        dsimp only
        obtain ⟨ha, hb, hc, hd2, he⟩ := pushSuccessors_spec m path
          (filterEdges (fun e => e.fromNode = node) (edgeValues m)) v
        have hpathv : isEdgePath m s path node := hq (node, path) (List.mem_cons_self _ _)
        have hSsub : ∀ x ∈ ((pushSuccessors path
            (filterEdges (fun e => e.fromNode = node) (edgeValues m)) v).1.map Prod.fst),
            x ∈ bfsUniv m s ∧ x ∉ v := by
          intro x hx
          obtain ⟨pr, hpr, hfst⟩ := List.mem_map.mp hx
          obtain ⟨h1, e, hee, h3, _⟩ := hc pr hpr
          obtain ⟨hev, _⟩ := (filterEdges_mem _ _ e).mp hee
          refine ⟨?_, hfst ▸ h1⟩
          exact Finset.mem_insert.mpr (Or.inr (List.mem_toFinset.mpr
            (List.mem_map.mpr ⟨e, hev, hfst ▸ h3⟩)))
        have hSfin : ((pushSuccessors path
            (filterEdges (fun e => e.fromNode = node) (edgeValues m)) v).1.map
              Prod.fst).toFinset ⊆ bfsUniv m s \ v := by
          intro x hx
          obtain ⟨h1, h2⟩ := hSsub x (List.mem_toFinset.mp hx)
          exact Finset.mem_sdiff.mpr ⟨h1, h2⟩
        have hvdiff : bfsUniv m s \ (pushSuccessors path
            (filterEdges (fun e => e.fromNode = node) (edgeValues m)) v).2 =
            (bfsUniv m s \ v) \ ((pushSuccessors path
              (filterEdges (fun e => e.fromNode = node) (edgeValues m)) v).1.map
                Prod.fst).toFinset := by
          rw [ha]
          ext x
          simp only [Finset.mem_sdiff, Finset.mem_union, List.mem_toFinset]
          tauto
        have hScard : ((pushSuccessors path
            (filterEdges (fun e => e.fromNode = node) (edgeValues m)) v).1.map
              Prod.fst).toFinset.card =
            (pushSuccessors path
              (filterEdges (fun e => e.fromNode = node) (edgeValues m)) v).1.length := by
          rw [List.toFinset_card_of_nodup hb, List.length_map]
        have hSle : (pushSuccessors path
            (filterEdges (fun e => e.fromNode = node) (edgeValues m)) v).1.length ≤
            (bfsUniv m s \ v).card := by
          rw [← hScard]
          exact Finset.card_le_card hSfin
        apply ih
        · rw [List.length_append, hvdiff, Finset.card_sdiff hSfin, hScard]
          have hlen : (((node, path) :: rest).length = rest.length + 1) := by simp
          rw [hlen] at hfuel
          omega
        · intro pr hpr
          rcases List.mem_append.mp hpr with h | h
          · exact hq pr (List.mem_cons.mpr (Or.inr h))
          · exact pushSuccessors_entries_valid m s node path v hpathv pr h
        · intro pr hpr
          rcases List.mem_append.mp hpr with h | h
          · exact he (hqv pr (List.mem_cons.mpr (Or.inr h)))
          · rw [ha]
            exact Finset.mem_union_right _ (List.mem_toFinset.mpr
              (List.mem_map.mpr ⟨pr, h, rfl⟩))
        · rw [ha]
          intro x hx
          rcases Finset.mem_union.mp hx with h | h
          · exact hvu h
          · exact (hSsub x (List.mem_toFinset.mp h)).1
        · exact he hs
        · intro n2 hn2 hnq ed hed hef
          rw [ha] at hn2
          rcases Finset.mem_union.mp hn2 with hv2 | hS2
          · by_cases hnn : n2 = node
            · subst hnn
              exact hd2 ed ((filterEdges_mem _ _ ed).mpr ⟨hed, hef⟩)
            · have : ed.toNode ∈ v := by
                refine hcl n2 hv2 ?_ ed hed hef
                intro pr hpr
                rcases List.mem_cons.mp hpr with h | h
                · rw [h]
                  exact fun hcon => hnn hcon.symm
                · exact hnq pr (List.mem_append.mpr (Or.inl h))
              exact he this
          · obtain ⟨pr, hpr, hfst⟩ := List.mem_map.mp (List.mem_toFinset.mp hS2)
            exact absurd hfst (hnq pr (List.mem_append.mpr (Or.inr hpr)))
        · intro n2 hn2 hnq
          rw [ha] at hn2
          rcases Finset.mem_union.mp hn2 with hv2 | hS2
          · by_cases hnn : n2 = node
            · subst hnn
              exact ht
            · refine htg n2 hv2 ?_
              intro pr hpr
              rcases List.mem_cons.mp hpr with h | h
              · rw [h]
                exact fun hcon => hnn hcon.symm
              · exact hnq pr (List.mem_append.mpr (Or.inl h))
          · obtain ⟨pr, hpr, hfst⟩ := List.mem_map.mp (List.mem_toFinset.mp hS2)
            exact absurd hfst (hnq pr (List.mem_append.mpr (Or.inr hpr)))
        · exact hreach

/-- Each node is dequeued/expanded at most once and enqueued at most
once: the popped-node and enqueued-node histories stay duplicate-free. -/
theorem bfsAux_nodup (m : RailMap) (target : String) :
    ∀ (fuel : ℕ) (q : List (String × List String)) (v : Finset String)
      (pops enqs : List String),
      (pops ++ q.map Prod.fst).Nodup →
      (∀ x ∈ pops, x ∈ v) →
      (∀ pr ∈ q, pr.1 ∈ v) →
      enqs.Nodup →
      (∀ x ∈ enqs, x ∈ v) →
      (bfsAux m target fuel q v pops enqs).2.1.Nodup ∧
        (bfsAux m target fuel q v pops enqs).2.2.Nodup := by
  intro fuel
  induction fuel with
  | zero =>
    intro q v pops enqs h1 _ _ h4 _
    exact ⟨h1.of_append_left, h4⟩
  | succ n ih =>
    intro q v pops enqs h1 h2 h3 h4 h5
    cases q with
    | nil => exact ⟨h1.of_append_left, h4⟩
    | cons hd rest =>
      obtain ⟨node, path⟩ := hd
      rw [bfsAux]
      by_cases ht : node = target
      · rw [if_pos ht]
        refine ⟨?_, h4⟩
        have hsub : (pops ++ [node]).Sublist (pops ++ node :: rest.map Prod.fst) :=
          List.Sublist.append_left
            (List.Sublist.cons₂ node (List.nil_sublist _)) pops
        exact h1.sublist hsub
      · rw [if_neg ht]
        dsimp only
        obtain ⟨ha, hb, hc, _, he⟩ := pushSuccessors_spec m path
          (filterEdges (fun e => e.fromNode = node) (edgeValues m)) v
        have hnodeV : node ∈ v := h3 (node, path) (List.mem_cons_self _ _)
        have hfreshS : ∀ x ∈ ((pushSuccessors path
            (filterEdges (fun e => e.fromNode = node) (edgeValues m)) v).1.map
              Prod.fst), x ∉ v := by
          intro x hx
          obtain ⟨pr, hpr, hfst⟩ := List.mem_map.mp hx
          exact hfst ▸ (hc pr hpr).1
        have hSv' : ∀ x ∈ ((pushSuccessors path
            (filterEdges (fun e => e.fromNode = node) (edgeValues m)) v).1.map
              Prod.fst), x ∈ (pushSuccessors path
            (filterEdges (fun e => e.fromNode = node) (edgeValues m)) v).2 := by
          intro x hx
          rw [ha]
          exact Finset.mem_union_right _ (List.mem_toFinset.mpr hx)
        apply ih
        · rw [List.map_append]
          have hassoc : (pops ++ [node]) ++ (rest.map Prod.fst ++
              ((pushSuccessors path
                (filterEdges (fun e => e.fromNode = node) (edgeValues m)) v).1.map
                  Prod.fst)) =
              (pops ++ node :: rest.map Prod.fst) ++
              ((pushSuccessors path
                (filterEdges (fun e => e.fromNode = node) (edgeValues m)) v).1.map
                  Prod.fst) := by
            simp
          rw [hassoc]
          refine List.Nodup.append h1 hb ?_
          intro x hx hx2
          have hxv : x ∈ v := by
            rcases List.mem_append.mp hx with h | h
            · exact h2 x h
            · rcases List.mem_cons.mp h with h | h
              · exact h ▸ hnodeV
              · obtain ⟨pr, hpr, hfst⟩ := List.mem_map.mp h
                exact hfst ▸ h3 pr (List.mem_cons.mpr (Or.inr hpr))
          exact hfreshS x hx2 hxv
        · intro x hx
          rcases List.mem_append.mp hx with h | h
          · exact he (h2 x h)
          · have hxn : x = node := List.mem_singleton.mp h
            rw [hxn]
            exact he hnodeV
        · intro pr hpr
          rcases List.mem_append.mp hpr with h | h
          · exact he (h3 pr (List.mem_cons.mpr (Or.inr h)))
          · exact hSv' pr.1 (List.mem_map.mpr ⟨pr, h, rfl⟩)
        · refine List.Nodup.append h4 hb ?_
          intro x hx hx2
          exact hfreshS x hx2 (h5 x hx)
        · intro x hx
          rcases List.mem_append.mp hx with h | h
          · exact he (h5 x h)
          · exact hSv' x h

end AppVue

/-! ## Claim theorems -/

/-- C1: Phase 1.5 (`detectPhysicalCollisions`) raises the fatal collision
error if and only if two distinct trains of the list, neither flagged
`isHandedOver`, share a `currentEdgeId` and have overlapping closed
intervals `[position − trainLength, position]`, with
`trainLength = 30 · carCount` (16 cars coupled, 8 otherwise).  The
detection pass is read-only: it is modelled as a pure function returning
only the optional error pair, so when no such pair exists it returns
`none` and no train record changes. -/
theorem C1_collision_error_iff_overlap_pair (trains : List TrainPhysics) :
    (PhysicsEngine.detectPhysicalCollisions trains).isSome ↔
      ∃ i j ti tj, i < j ∧ trains.get? i = some ti ∧ trains.get? j = some tj ∧
        Claims.claimCollides ti tj := by
  induction trains with
  | nil => simp [PhysicsEngine.detectPhysicalCollisions]
  | cons t rest ih =>
    rw [PhysicsEngine.detectPhysicalCollisions_cons_isSome,
      PhysicsEngine.findCollisionWith_isSome, ih]
    constructor
    · rintro (⟨u, hu, hcw⟩ | ⟨i, j, ti, tj, hij, hi, hj, hc⟩)
      · obtain ⟨j, hj⟩ := List.get?_of_mem hu
        exact ⟨0, j + 1, t, u, Nat.succ_pos j, rfl, by simpa using hj,
          (PhysicsEngine.collidesWith_iff_claimCollides t u).mp hcw⟩
      · exact ⟨i + 1, j + 1, ti, tj, by omega, by simpa using hi, by simpa using hj, hc⟩
    · rintro ⟨i, j, ti, tj, hij, hi, hj, hc⟩
      match i, j with
      | 0, 0 => omega
      | i + 1, 0 => omega
      | 0, j + 1 =>
        left
        have ht : ti = t := by simpa using hi.symm
        subst ht
        exact ⟨tj, List.get?_mem (by simpa using hj),
          (PhysicsEngine.collidesWith_iff_claimCollides ti tj).mpr hc⟩
      | i + 1, j + 1 =>
        right
        exact ⟨i, j, ti, tj, by omega, by simpa using hi, by simpa using hj, hc⟩

/-- C2: if after Phase 1 two distinct trains hold registered intents
targeting the same edge id (and Phase 1.5 itself finds no physical
collision, so the conflict pass is reached), `update` returns the fatal
error, its two ids belong to two distinct trains of the tick — one
appearing strictly before the other — both holding intents on one common
target edge; and since the tick aborts with an error, no `.ok` state is
produced, so no train's intent is committed that tick. -/
theorem C2_same_target_intents_abort_tick
    (trains : List TrainPhysics) (m : RailMap) (dt : ℚ) (currentTick : Int)
    (rnd : String → ℕ × ℕ)
    (hconf : ∃ i j ti tj iti itj, i < j ∧
      (PhysicsEngine.phase1List trains m dt currentTick rnd).get? i = some ti ∧
      (PhysicsEngine.phase1List trains m dt currentTick rnd).get? j = some tj ∧
      ti.nextMoveIntent = some iti ∧ tj.nextMoveIntent = some itj ∧
      iti.targetEdgeId = itj.targetEdgeId)
    (hphys : PhysicsEngine.detectPhysicalCollisions
      (PhysicsEngine.phase1List trains m dt currentTick rnd) = none) :
    ∃ a b,
      PhysicsEngine.update trains m dt currentTick rnd = Except.error (a, b) ∧
      (∃ u v itu itv,
        [u, v].Sublist (PhysicsEngine.phase1List trains m dt currentTick rnd) ∧
        u.nextMoveIntent = some itu ∧ v.nextMoveIntent = some itv ∧
        itu.targetEdgeId = itv.targetEdgeId ∧ b = u.id ∧ a = v.id) ∧
      ∀ res, PhysicsEngine.update trains m dt currentTick rnd ≠ Except.ok res := by
  obtain ⟨i, j, ti, tj, iti, itj, hij, hi, hj, hiti, hitj, heq⟩ := hconf
  cases hres : PhysicsEngine.resolveConflicts
      (PhysicsEngine.phase1List trains m dt currentTick rnd) with
  | none =>
    exact absurd heq (PhysicsEngine.resolveConflictsAux_none_no_pair _ [] hres i j ti tj
      iti itj hij hi hj hiti hitj)
  | some p =>
    obtain ⟨a, b⟩ := p
    have hupd : PhysicsEngine.update trains m dt currentTick rnd = Except.error (a, b) := by
      rw [PhysicsEngine.update_eq, hphys, hres]
    have hspec := PhysicsEngine.resolveConflictsAux_some_spec _ [] [] a b
      (fun k v hk => by cases hk) hres
    refine ⟨a, b, hupd, by simpa using hspec, ?_⟩
    intro res hok
    rw [hupd] at hok
    cases hok

theorem C2_witness :
    ∃ a b,
      PhysicsEngine.update [c2Train "T1" "eA", c2Train "T2" "eB"] ⟨[], []⟩ 1 0
        (fun _ => (0, 0)) = Except.error (a, b) ∧
      (∃ u v itu itv,
        [u, v].Sublist (PhysicsEngine.phase1List [c2Train "T1" "eA", c2Train "T2" "eB"]
          ⟨[], []⟩ 1 0 (fun _ => (0, 0))) ∧
        u.nextMoveIntent = some itu ∧ v.nextMoveIntent = some itv ∧
        itu.targetEdgeId = itv.targetEdgeId ∧ b = u.id ∧ a = v.id) ∧
      ∀ res, PhysicsEngine.update [c2Train "T1" "eA", c2Train "T2" "eB"] ⟨[], []⟩ 1 0
        (fun _ => (0, 0)) ≠ Except.ok res :=
  C2_same_target_intents_abort_tick [c2Train "T1" "eA", c2Train "T2" "eB"] ⟨[], []⟩ 1 0
    (fun _ => (0, 0))
    ⟨0, 1, PhysicsEngine.phase1Train ⟨[], []⟩ 1 0 (fun _ => (0, 0))
        (PhysicsEngine.handlePassengerLogic (c2Train "T1" "eA")),
      PhysicsEngine.phase1Train ⟨[], []⟩ 1 0 (fun _ => (0, 0))
        (PhysicsEngine.handlePassengerLogic (c2Train "T2" "eB")),
      ⟨"shared", 0⟩, ⟨"shared", 0⟩, by decide, rfl, rfl, by decide, by decide, rfl⟩
    (by decide)

/-- C3: `resolveNextEdge` returns exactly what the claim describes.  With
the arrival orientation read off the incoming edge (the train arrived
moving forward exactly when the arrival node is the incoming edge's
`toNode`), the flow-preserving candidates other than the incoming edge,
sorted by edge id, decide the result: none ⇒ `none`; one ⇒ that one;
several at a switch ⇒ the one at index `switchState % count`
(`switchState` defaulting to 0); several elsewhere ⇒ the first. -/
theorem C3_resolveNextEdge_characterization
    (m : RailMap) (node : RailNode) (incomingEdgeId : String) (ie : RailEdge)
    (hie : lookupEdge m incomingEdgeId = some ie)
    (hnl : ie.fromNode ≠ ie.toNode)
    (harr : node.id = ie.fromNode ∨ node.id = ie.toNode) :
    PhysicsEngine.resolveNextEdge (some node) m incomingEdgeId =
      (match Claims.c3Candidates m node incomingEdgeId (decide (ie.toNode = node.id)) with
       | [] => none
       | [c] => some c.id
       | c :: d :: cs =>
         if node.type = NodeType.switch then
           ((c :: d :: cs).get?
             (node.switchState.getD 0 % (c :: d :: cs).length)).map (fun e => e.id)
         else some c.id) := by
  have hcand : PhysicsEngine.candidateEdges m node incomingEdgeId ie =
      Claims.c3Candidates m node incomingEdgeId (decide (ie.toNode = node.id)) := by
    unfold PhysicsEngine.candidateEdges Claims.c3Candidates
    refine congrArg sortEdgesById (filterEdges_congr _ _ (fun e => ?_) _)
    rcases harr with h | h
    · have hfwd : ¬ ie.toNode = node.id := fun hc => hnl (h.symm.trans hc.symm)
      have hfrom : ie.fromNode = node.id := h.symm
      simp [hfrom, hfwd]
    · have hfrom : ¬ ie.fromNode = node.id := fun hc => hnl (hc.trans h)
      have hfwd : ie.toNode = node.id := h.symm
      simp [hfrom, hfwd]
  simp only [PhysicsEngine.resolveNextEdge, hie, hcand]

/-- C3 witness: the characterization applied at a concrete two-way switch
set to `switchState = 1`, selecting the second candidate in id order. -/
theorem C3_characterization_witness :
    PhysicsEngine.resolveNextEdge (some wNodeB) wMap "e1" =
      (match Claims.c3Candidates wMap wNodeB "e1" (decide (wIncoming.toNode = wNodeB.id)) with
       | [] => none
       | [c] => some c.id
       | c :: d :: cs =>
         if wNodeB.type = NodeType.switch then
           ((c :: d :: cs).get?
             (wNodeB.switchState.getD 0 % (c :: d :: cs).length)).map (fun e => e.id)
         else some c.id) :=
  C3_resolveNextEdge_characterization wMap wNodeB "e1" wIncoming (by decide) (by decide)
    (Or.inr (by decide))

/-- C5: a moving train whose tentative movement crosses the boundary of
its unserviced platform edge snaps to the boundary (`length` forward, `0`
backward), stops, enters `BOARDING`, marks the edge serviced, and
registers no intent; and whenever `lastServicedEdgeId` already equals the
current edge id, the platform-stop branch leaves the passenger-service
fields (`passengerState`, `boardingTimer`, `lastServicedEdgeId`)
untouched — it cannot re-trigger. -/
theorem C5_platform_stop_once
    (t : TrainPhysics) (m : RailMap) (dt : ℚ) (currentTick : Int) (rnd : ℕ × ℕ)
    (e : RailEdge)
    (hst : t.state = TrainState.moving) (hsp : ¬ t.speed = 0)
    (he : lookupEdge m t.currentEdgeId = some e)
    (harr : (PhysicsEngine.effectiveDir t = 1 ∧
        PhysicsEngine.tentativePos t dt ≥ e.length) ∨
      (PhysicsEngine.effectiveDir t = -1 ∧ PhysicsEngine.tentativePos t dt ≤ 0))
    (hplat : e.isPlatform = true)
    (hsvc : ¬ t.lastServicedEdgeId = some t.currentEdgeId)
    (hint : t.nextMoveIntent = none) :
    ((PhysicsEngine.computeIntent t m dt currentTick rnd).position =
        (if PhysicsEngine.effectiveDir t = 1 then e.length else 0) ∧
      (PhysicsEngine.computeIntent t m dt currentTick rnd).speed = 0 ∧
      (PhysicsEngine.computeIntent t m dt currentTick rnd).state = TrainState.stopped ∧
      (PhysicsEngine.computeIntent t m dt currentTick rnd).passengerState =
        some PassengerState.BOARDING ∧
      (PhysicsEngine.computeIntent t m dt currentTick rnd).lastServicedEdgeId =
        some t.currentEdgeId ∧
      (PhysicsEngine.computeIntent t m dt currentTick rnd).nextMoveIntent = none) ∧
    (∀ u : TrainPhysics, u.lastServicedEdgeId = some u.currentEdgeId →
      (PhysicsEngine.computeIntent u m dt currentTick rnd).passengerState =
          u.passengerState ∧
        (PhysicsEngine.computeIntent u m dt currentTick rnd).boardingTimer =
          u.boardingTimer ∧
        (PhysicsEngine.computeIntent u m dt currentTick rnd).lastServicedEdgeId =
          u.lastServicedEdgeId) := by
  constructor
  · have hmv' : ¬ (t.state ≠ TrainState.moving ∨ t.speed = 0) := by simp [hst, hsp]
    have hb : PhysicsEngine.computeIntent t m dt currentTick rnd =
        { t with
          position := if PhysicsEngine.effectiveDir t = 1 then e.length else 0
          speed := 0
          state := TrainState.stopped
          passengerState := some PassengerState.BOARDING
          arrivalTick := some currentTick
          boardingTimer := some (DWELL_TIME_MIN + (rnd.1 : Int))
          stopDuration := some (DWELL_TIME_MIN + (rnd.1 : Int))
          stopBuffer := some (BUFFER_TIME_MIN + (rnd.2 : Int))
          lastServicedEdgeId := some t.currentEdgeId } := by
      unfold PhysicsEngine.computeIntent
      rw [if_neg hmv']
      simp only [he]
      rw [if_pos harr, if_pos ⟨hplat, hsvc⟩]
    rw [hb, hint]
    simp
  · intro u hu
    unfold PhysicsEngine.computeIntent
    split
    · exact ⟨rfl, rfl, rfl⟩
    · split
      · exact ⟨rfl, rfl, rfl⟩
      · split
        · split
          · rename_i hcond
            exact absurd hu hcond.2
          · split
            · exact ⟨rfl, rfl, rfl⟩
            · split
              · exact ⟨rfl, rfl, rfl⟩
              · split
                · exact ⟨rfl, rfl, rfl⟩
                · split
                  · exact ⟨rfl, rfl, rfl⟩
                  · exact ⟨rfl, rfl, rfl⟩
        · exact ⟨rfl, rfl, rfl⟩

/-- C5 witness: one tick of the concrete platform approach. -/
theorem C5_witness :
    ((PhysicsEngine.computeIntent c5Train c5Map (1/60) 0 (0, 0)).position =
        (if PhysicsEngine.effectiveDir c5Train = 1 then c5Edge.length else 0) ∧
      (PhysicsEngine.computeIntent c5Train c5Map (1/60) 0 (0, 0)).speed = 0 ∧
      (PhysicsEngine.computeIntent c5Train c5Map (1/60) 0 (0, 0)).state =
        TrainState.stopped ∧
      (PhysicsEngine.computeIntent c5Train c5Map (1/60) 0 (0, 0)).passengerState =
        some PassengerState.BOARDING ∧
      (PhysicsEngine.computeIntent c5Train c5Map (1/60) 0 (0, 0)).lastServicedEdgeId =
        some c5Train.currentEdgeId ∧
      (PhysicsEngine.computeIntent c5Train c5Map (1/60) 0 (0, 0)).nextMoveIntent = none) ∧
    (∀ u : TrainPhysics, u.lastServicedEdgeId = some u.currentEdgeId →
      (PhysicsEngine.computeIntent u c5Map (1/60) 0 (0, 0)).passengerState =
          u.passengerState ∧
        (PhysicsEngine.computeIntent u c5Map (1/60) 0 (0, 0)).boardingTimer =
          u.boardingTimer ∧
        (PhysicsEngine.computeIntent u c5Map (1/60) 0 (0, 0)).lastServicedEdgeId =
          u.lastServicedEdgeId) :=
  C5_platform_stop_once c5Train c5Map (1/60) 0 (0, 0) c5Edge rfl (by norm_num [c5Train])
    (by decide)
    (Or.inl ⟨rfl, by norm_num [c5Train, c5Edge, PhysicsEngine.tentativePos,
      PhysicsEngine.effectiveDir]⟩)
    rfl (by decide) rfl

/-- C6: committing a surviving intent sets direction `+1` and position
`overflow` when the arrival node (from the pre-commit direction on the
old edge) is the target's `fromNode`; direction `-1` and position
`length − overflow` when it is the target's `toNode` (the target edge
being non-degenerate); the head of the planned path is popped exactly
once iff it equals the target edge id; a train without an intent — in
particular one that free-ran inside its edge, which also keeps its path
and registers no intent — is left entirely unchanged by the commit
phase. -/
theorem C6_commit_direction_position_path
    (m : RailMap) (t : TrainPhysics) (intent : MoveIntent) (cur ne : RailEdge)
    (hint : t.nextMoveIntent = some intent)
    (hcur : lookupEdge m t.currentEdgeId = some cur)
    (htgt : lookupEdge m intent.targetEdgeId = some ne)
    (hnl : ne.fromNode ≠ ne.toNode) :
    ((ne.fromNode = (if PhysicsEngine.effectiveDir t = 1 then cur.toNode else cur.fromNode) →
        (PhysicsEngine.commitOne m t).1.direction = 1 ∧
        (PhysicsEngine.commitOne m t).1.position = intent.overflowDistance) ∧
      (ne.toNode = (if PhysicsEngine.effectiveDir t = 1 then cur.toNode else cur.fromNode) →
        (PhysicsEngine.commitOne m t).1.direction = -1 ∧
        (PhysicsEngine.commitOne m t).1.position = ne.length - intent.overflowDistance) ∧
      (PhysicsEngine.commitOne m t).1.currentEdgeId = intent.targetEdgeId ∧
      (PhysicsEngine.commitOne m t).1.path =
        (if t.path.head? = some intent.targetEdgeId then t.path.tail else t.path)) ∧
    (∀ u : TrainPhysics, u.nextMoveIntent = none → PhysicsEngine.commitOne m u = (u, m)) ∧
    (∀ (u : TrainPhysics) (cur' : RailEdge) (dt : ℚ) (tick : Int) (rnd : ℕ × ℕ),
      u.state = TrainState.moving → ¬ u.speed = 0 →
      lookupEdge m u.currentEdgeId = some cur' →
      ¬ ((PhysicsEngine.effectiveDir u = 1 ∧
            PhysicsEngine.tentativePos u dt ≥ cur'.length) ∨
         (PhysicsEngine.effectiveDir u = -1 ∧ PhysicsEngine.tentativePos u dt ≤ 0)) →
      (PhysicsEngine.computeIntent u m dt tick rnd).path = u.path ∧
      (PhysicsEngine.computeIntent u m dt tick rnd).nextMoveIntent = none) := by
  refine ⟨?_, ?_, ?_⟩
  · obtain ⟨cur1, hcur1, hscur⟩ := PhysicsEngine.lookupEdge_scrub_transfer
      (PhysicsEngine.releaseOld m t) m t.currentEdgeId cur
      (PhysicsEngine.lookupEdge_releaseOld_scrub m t) hcur
    obtain ⟨ne1, hne1, hsne⟩ := PhysicsEngine.lookupEdge_scrub_transfer
      (PhysicsEngine.releaseOld m t) m intent.targetEdgeId ne
      (PhysicsEngine.lookupEdge_releaseOld_scrub m t) htgt
    have hneFrom : ne1.fromNode = ne.fromNode := by
      have h := congrArg RailEdge.fromNode hsne; exact h
    have hneTo : ne1.toNode = ne.toNode := by
      have h := congrArg RailEdge.toNode hsne; exact h
    have hneLen : ne1.length = ne.length := by
      have h := congrArg RailEdge.length hsne; exact h
    have hcurTo : cur1.toNode = cur.toNode := by
      have h := congrArg RailEdge.toNode hscur; exact h
    have hcurFrom : cur1.fromNode = cur.fromNode := by
      have h := congrArg RailEdge.fromNode hscur; exact h
    have hb : PhysicsEngine.commitOne m t =
        ({ PhysicsEngine.commitDirPos (PhysicsEngine.pushVisited t) intent ne1
            (if PhysicsEngine.effectiveDir t = 1 then cur1.toNode else cur1.fromNode) with
            currentEdgeId := intent.targetEdgeId
            path := PhysicsEngine.consumePath t.path intent.targetEdgeId
            nextMoveIntent := none },
          PhysicsEngine.setOccupied (PhysicsEngine.releaseOld m t) intent.targetEdgeId
            (some t.id)) := by
      have hpc : (PhysicsEngine.pushVisited t).currentEdgeId = t.currentEdgeId := rfl
      have hpd : PhysicsEngine.effectiveDir (PhysicsEngine.pushVisited t) =
        PhysicsEngine.effectiveDir t := rfl
      have hpp : (PhysicsEngine.pushVisited t).path = t.path := rfl
      have hpi : (PhysicsEngine.pushVisited t).id = t.id := rfl
      simp only [PhysicsEngine.commitOne, hint, PhysicsEngine.commitBody, hpc, hpd, hpp,
        hpi, hcur1, hne1]
    have harr1 : (if PhysicsEngine.effectiveDir t = 1 then cur1.toNode else cur1.fromNode) =
        (if PhysicsEngine.effectiveDir t = 1 then cur.toNode else cur.fromNode) := by
      rw [hcurTo, hcurFrom]
    refine ⟨?_, ?_, ?_, ?_⟩
    · intro hfrom
      rw [hb]
      have : ne1.fromNode =
          (if PhysicsEngine.effectiveDir t = 1 then cur1.toNode else cur1.fromNode) := by
        rw [hneFrom, harr1, hfrom]
      simp [PhysicsEngine.commitDirPos, this]
    · intro hto
      rw [hb]
      have hno : ¬ ne1.fromNode =
          (if PhysicsEngine.effectiveDir t = 1 then cur1.toNode else cur1.fromNode) := by
        rw [hneFrom, harr1, ← hto]
        exact fun hc => hnl hc
      have hyes : ne1.toNode =
          (if PhysicsEngine.effectiveDir t = 1 then cur1.toNode else cur1.fromNode) := by
        rw [hneTo, harr1, hto]
      simp [PhysicsEngine.commitDirPos, hno, hyes, hneLen]
    · rw [hb]
    · rw [hb]
      show PhysicsEngine.consumePath t.path intent.targetEdgeId = _
      cases hp : t.path with
      | nil => simp [PhysicsEngine.consumePath]
      | cons h tl =>
        by_cases hh : h = intent.targetEdgeId
        · simp [PhysicsEngine.consumePath, hh]
        · simp [PhysicsEngine.consumePath, hh]
  · intro u hu
    simp only [PhysicsEngine.commitOne, hu]
  · intro u cur' dt tick rnd hst hsp hcur' harr'
    unfold PhysicsEngine.computeIntent
    rw [if_neg (by simp [hst, hsp])]
    simp only [hcur']
    rw [if_neg harr']
    exact ⟨rfl, rfl⟩

/-- C6 witness: the commit characterization at the concrete scenario. -/
theorem C6_witness :
    ((c6Ne.fromNode =
        (if PhysicsEngine.effectiveDir c6Train = 1 then c6Cur.toNode else c6Cur.fromNode) →
        (PhysicsEngine.commitOne c6Map c6Train).1.direction = 1 ∧
        (PhysicsEngine.commitOne c6Map c6Train).1.position = (3 : ℚ)) ∧
      (c6Ne.toNode =
        (if PhysicsEngine.effectiveDir c6Train = 1 then c6Cur.toNode else c6Cur.fromNode) →
        (PhysicsEngine.commitOne c6Map c6Train).1.direction = -1 ∧
        (PhysicsEngine.commitOne c6Map c6Train).1.position = c6Ne.length - (3 : ℚ)) ∧
      (PhysicsEngine.commitOne c6Map c6Train).1.currentEdgeId = "e2" ∧
      (PhysicsEngine.commitOne c6Map c6Train).1.path =
        (if c6Train.path.head? = some "e2" then c6Train.path.tail else c6Train.path)) ∧
    (∀ u : TrainPhysics, u.nextMoveIntent = none →
      PhysicsEngine.commitOne c6Map u = (u, c6Map)) ∧
    (∀ (u : TrainPhysics) (cur' : RailEdge) (dt : ℚ) (tick : Int) (rnd : ℕ × ℕ),
      u.state = TrainState.moving → ¬ u.speed = 0 →
      lookupEdge c6Map u.currentEdgeId = some cur' →
      ¬ ((PhysicsEngine.effectiveDir u = 1 ∧
            PhysicsEngine.tentativePos u dt ≥ cur'.length) ∨
         (PhysicsEngine.effectiveDir u = -1 ∧ PhysicsEngine.tentativePos u dt ≤ 0)) →
      (PhysicsEngine.computeIntent u c6Map dt tick rnd).path = u.path ∧
      (PhysicsEngine.computeIntent u c6Map dt tick rnd).nextMoveIntent = none) :=
  C6_commit_direction_position_path c6Map c6Train ⟨"e2", 3⟩ c6Cur c6Ne rfl (by decide)
    (by decide) (by decide)

/-- C7: a train that starts a tick stopped, with passenger state
`BOARDING` or `READY` and no pending intent, is still stopped — same
position, speed and edge, intent-free, and still boarding/ready (Phase 0
may move `BOARDING` to `READY`) — after any number of completed engine
ticks; no sequence of `update` calls alone ever sets it moving. -/
theorem C7_boarding_ready_never_resumes
    (n : ℕ) (trains : List TrainPhysics) (m : RailMap) (dt : ℚ) (ticks : ℕ → Int)
    (rnds : ℕ → String → ℕ × ℕ) (i : ℕ) (t : TrainPhysics)
    (hg : trains.get? i = some t) (hst : t.state = TrainState.stopped)
    (hps : t.passengerState = some PassengerState.BOARDING ∨
      t.passengerState = some PassengerState.READY)
    (hni : t.nextMoveIntent = none)
    (ts' : List TrainPhysics) (m' : RailMap)
    (hok : PhysicsEngine.updateN dt ticks rnds n trains m = Except.ok (ts', m')) :
    ∃ t', ts'.get? i = some t' ∧ t'.state = TrainState.stopped ∧
      t'.position = t.position ∧ t'.speed = t.speed ∧
      t'.currentEdgeId = t.currentEdgeId ∧
      (t'.passengerState = some PassengerState.BOARDING ∨
        t'.passengerState = some PassengerState.READY) ∧
      t'.nextMoveIntent = none := by
  induction n generalizing trains m t with
  | zero =>
    obtain ⟨h1, h2⟩ : trains = ts' ∧ m = m' := by
      have h := Option.some.inj (congrArg Except.toOption hok)
      exact ⟨congrArg Prod.fst h, congrArg Prod.snd h⟩
    subst h1
    exact ⟨t, hg, hst, rfl, rfl, rfl, hps, hni⟩
  | succ k ih =>
    rw [PhysicsEngine.updateN] at hok
    cases hu : PhysicsEngine.update trains m dt (ticks k) (rnds k) with
    | error p => rw [hu] at hok; cases hok
    | ok r =>
      rw [hu] at hok
      obtain ⟨t1, hg1, hst1, hp1, hv1, hc1, hps1, hni1⟩ :=
        PhysicsEngine.stopped_passenger_train_fixed_tick trains m dt (ticks k) (rnds k)
          i t hg hst hps hni r.1 r.2 (by rw [hu])
      obtain ⟨t', hg', hst', hp', hv', hc', hps', hni'⟩ :=
        ih r.1 r.2 t1 hg1 hst1 hps1 hni1 hok
      exact ⟨t', hg', hst', by rw [hp', hp1], by rw [hv', hv1], by rw [hc', hc1], hps', hni'⟩

/-- C7 witness: two completed ticks of the concrete boarding train. -/
theorem C7_witness :
    ∃ t', [{ c7Train with boardingTimer := some 98 }].get? 0 = some t' ∧
      t'.state = TrainState.stopped ∧
      t'.position = c7Train.position ∧ t'.speed = c7Train.speed ∧
      t'.currentEdgeId = c7Train.currentEdgeId ∧
      (t'.passengerState = some PassengerState.BOARDING ∨
        t'.passengerState = some PassengerState.READY) ∧
      t'.nextMoveIntent = none :=
  C7_boarding_ready_never_resumes 2 [c7Train] ⟨[], []⟩ 1 (fun _ => 0) (fun _ _ => (0, 0))
    0 c7Train rfl rfl (Or.inl rfl) rfl [{ c7Train with boardingTimer := some 98 }] ⟨[], []⟩
    (by rfl)

/-- C8 counterexample: starting within `[0, 10]` on edge `e1`, one
completed `update` tick commits the train onto edge `e2` of length 5 at
position 7: the overflow carried onto the next edge is not clamped to the
new edge's `[0, length]` range, refuting the invariant as claimed. -/
theorem C8_counterexample_overflow_exceeds_next_edge :
    (0 ≤ c8Train.position ∧ c8Train.position ≤
      ((lookupEdge c8Map c8Train.currentEdgeId).map RailEdge.length).getD 0) ∧
    (PhysicsEngine.update [c8Train] c8Map 1 0 (fun _ => (0, 0))).toOption.map
        (fun r => r.1.map (fun u => (u.currentEdgeId, u.position))) =
      some [("e2", 7)] ∧
    (lookupEdge c8Map "e2").map RailEdge.length = some 5 ∧
    ¬ ((7 : ℚ) ≤ 5) := by
  refine ⟨⟨by norm_num [c8Train], by norm_num [c8Train, c8Map, lookupEdge, lookupEntry]⟩,
    ?_, by rfl, by norm_num⟩
  have h1 : PhysicsEngine.computeIntent c8Train c8Map 1 0 (0, 0) =
      { c8Train with nextMoveIntent := some ⟨"e2", 7⟩ } := by
    unfold PhysicsEngine.computeIntent
    rw [if_neg (by norm_num [c8Train])]
    rw [show lookupEdge c8Map c8Train.currentEdgeId =
      some ⟨"e1", "A", "B", 10, none, false⟩ from rfl]
    dsimp only
    rw [if_pos (Or.inl ⟨rfl, by norm_num [PhysicsEngine.tentativePos,
      PhysicsEngine.effectiveDir, c8Train]⟩)]
    rw [if_neg (by norm_num)]
    rw [if_neg (by norm_num [c8Train])]
    rw [show lookupNode c8Map
      (if PhysicsEngine.effectiveDir c8Train = 1 then
        (RailEdge.mk "e1" "A" "B" 10 none false).toNode
      else (RailEdge.mk "e1" "A" "B" 10 none false).fromNode) =
      some ⟨"B", NodeType.connector, none, none⟩ from rfl]
    dsimp only
    rw [if_neg (by simp)]
    rw [show PhysicsEngine.resolveNextEdge
      (some ⟨"B", NodeType.connector, none, none⟩) c8Map c8Train.currentEdgeId =
      some "e2" from rfl]
    dsimp only
    have hovf : PhysicsEngine.overflowOf c8Train 1 ⟨"e1", "A", "B", 10, none, false⟩ = 7 := by
      norm_num [PhysicsEngine.overflowOf, PhysicsEngine.tentativePos,
        PhysicsEngine.effectiveDir, c8Train]
    rw [hovf]
  have hp1 : PhysicsEngine.phase1List [c8Train] c8Map 1 0 (fun _ => (0, 0)) =
      [{ c8Train with nextMoveIntent := some ⟨"e2", 7⟩ }] := by
    show [PhysicsEngine.phase1Train c8Map 1 0 (fun _ => (0, 0))
      (PhysicsEngine.handlePassengerLogic c8Train)] = _
    rw [show PhysicsEngine.handlePassengerLogic c8Train = c8Train from rfl]
    unfold PhysicsEngine.phase1Train
    rw [if_pos (show c8Train.state = TrainState.moving from rfl), h1]
  rw [PhysicsEngine.update_eq, hp1]
  rfl

/-- C8 amended: the position invariant holds under the additional
hypothesis that one tick's movement `speed · dt` does not exceed the
length of any edge of the map (so every carried overflow fits on the
target edge).  Then a train starting within `[0, L]` of its current edge
ends any completed tick within `[0, L']` of its (possibly new) current
edge, covering both the committed-overflow and the discontinuity-fallback
positions. -/
theorem C8_amended_position_in_range
    (trains : List TrainPhysics) (m : RailMap) (dt : ℚ) (tick : Int)
    (rnd : String → ℕ × ℕ) (i : ℕ) (t : TrainPhysics) (e : RailEdge)
    (hg : trains.get? i = some t)
    (he : lookupEdge m t.currentEdgeId = some e)
    (hdir : t.direction = 1 ∨ t.direction = -1)
    (hsp : 0 ≤ t.speed) (hdt : 0 ≤ dt)
    (hpos0 : 0 ≤ t.position) (hpos1 : t.position ≤ e.length)
    (hni : t.nextMoveIntent = none)
    (hbound : ∀ ed ∈ edgeValues m, t.speed * dt ≤ ed.length)
    (ts' : List TrainPhysics) (m' : RailMap)
    (hok : PhysicsEngine.update trains m dt tick rnd = Except.ok (ts', m')) :
    ∃ t' e', ts'.get? i = some t' ∧ lookupEdge m' t'.currentEdgeId = some e' ∧
      0 ≤ t'.position ∧ t'.position ≤ e'.length := by
  obtain ⟨hS, hV, hP, hI, hC, hD, _⟩ :=
    PhysicsEngine.handlePassengerLogic_preserves t
  have he0 : lookupEdge m (PhysicsEngine.handlePassengerLogic t).currentEdgeId = some e := by
    rw [hC]; exact he
  have hni0 : (PhysicsEngine.handlePassengerLogic t).nextMoveIntent = none := by
    rw [hI]; exact hni
  -- the Phase 1 result and the facts we need about it
  have hmain : ((PhysicsEngine.phase1Train m dt tick rnd
        (PhysicsEngine.handlePassengerLogic t)).currentEdgeId = t.currentEdgeId ∧
      (PhysicsEngine.phase1Train m dt tick rnd
        (PhysicsEngine.handlePassengerLogic t)).nextMoveIntent = none ∧
      0 ≤ (PhysicsEngine.phase1Train m dt tick rnd
        (PhysicsEngine.handlePassengerLogic t)).position ∧
      (PhysicsEngine.phase1Train m dt tick rnd
        (PhysicsEngine.handlePassengerLogic t)).position ≤ e.length) ∨
      (∃ nid, (PhysicsEngine.phase1Train m dt tick rnd
          (PhysicsEngine.handlePassengerLogic t)).currentEdgeId = t.currentEdgeId ∧
        (PhysicsEngine.phase1Train m dt tick rnd
          (PhysicsEngine.handlePassengerLogic t)).nextMoveIntent =
          some ⟨nid, PhysicsEngine.overflowOf (PhysicsEngine.handlePassengerLogic t) dt e⟩ ∧
        0 ≤ (PhysicsEngine.phase1Train m dt tick rnd
          (PhysicsEngine.handlePassengerLogic t)).position ∧
        (PhysicsEngine.phase1Train m dt tick rnd
          (PhysicsEngine.handlePassengerLogic t)).position ≤ e.length ∧
        0 ≤ PhysicsEngine.overflowOf (PhysicsEngine.handlePassengerLogic t) dt e ∧
        PhysicsEngine.overflowOf (PhysicsEngine.handlePassengerLogic t) dt e ≤
          t.speed * dt) := by
    unfold PhysicsEngine.phase1Train
    by_cases hmov : (PhysicsEngine.handlePassengerLogic t).state = TrainState.moving
    · rw [if_pos hmov]
      have hcases := PhysicsEngine.computeIntent_position_cases
        (PhysicsEngine.handlePassengerLogic t) m dt tick
        (rnd (PhysicsEngine.handlePassengerLogic t).id) e he0
        (by rw [hD]; exact hdir) (by rw [hV]; exact hsp) hdt
        (by rw [hP]; exact hpos0) (by rw [hP]; exact hpos1) hni0
      rcases hcases with ⟨h1, h2, h3, h4⟩ | ⟨nid, h1, h2, h3, h4, h5⟩
      · exact Or.inl ⟨by rw [h2, hC], h1, h3, h4⟩
      · refine Or.inr ⟨nid, by rw [h2, hC], h1, ?_, ?_, h4, by rw [hV] at h5; exact h5⟩
        · rw [h3, hP]; exact hpos0
        · rw [h3, hP]; exact hpos1
    · rw [if_neg hmov]
      obtain ⟨f1, f2, f3⟩ :=
        PhysicsEngine.tryResume_fields (PhysicsEngine.handlePassengerLogic t) m
      refine Or.inl ⟨by rw [f2, hC], by rw [f3, hI]; exact hni, ?_, ?_⟩
      · rw [f1, hP]; exact hpos0
      · rw [f1, hP]; exact hpos1
  -- the committed result
  have hg1 : (PhysicsEngine.phase1List trains m dt tick rnd).get? i =
      some (PhysicsEngine.phase1Train m dt tick rnd
        (PhysicsEngine.handlePassengerLogic t)) := by
    unfold PhysicsEngine.phase1List
    rw [List.get?_map, List.get?_map, hg]
    rfl
  have hcm : PhysicsEngine.commitUpdates (PhysicsEngine.phase1List trains m dt tick rnd) m =
      (ts', m') := by
    rw [PhysicsEngine.update_eq] at hok
    cases hd : PhysicsEngine.detectPhysicalCollisions
        (PhysicsEngine.phase1List trains m dt tick rnd) with
    | some p => rw [hd] at hok; cases hok
    | none =>
      rw [hd] at hok
      cases hc : PhysicsEngine.resolveConflicts
          (PhysicsEngine.phase1List trains m dt tick rnd) with
      | some p => rw [hc] at hok; cases hok
      | none =>
        rw [hc] at hok
        exact Option.some.inj (congrArg Except.toOption hok)
  obtain ⟨mi, hgi, hsc⟩ := PhysicsEngine.commitUpdates_get?
    (PhysicsEngine.phase1List trains m dt tick rnd) m i _ hg1
  -- apply the commit range lemma
  have hrange := PhysicsEngine.commitOne_position_in_range mi m
    (PhysicsEngine.phase1Train m dt tick rnd (PhysicsEngine.handlePassengerLogic t)) e
    hsc
    (by
      rcases hmain with ⟨h1, _, _, _⟩ | ⟨nid, h1, _, _, _, _, _⟩ <;>
        · rw [h1]; exact he)
    (by rcases hmain with ⟨_, _, h3, _⟩ | ⟨nid, _, _, h3, _, _, _⟩ <;> exact h3)
    (by rcases hmain with ⟨_, _, _, h4⟩ | ⟨nid, _, _, _, h4, _, _⟩ <;> exact h4)
    (by
      intro intent hit
      rcases hmain with ⟨_, h2, _, _⟩ | ⟨nid, _, h2, _, _, h5, h6⟩
      · rw [h2] at hit; cases hit
      · rw [h2] at hit
        obtain rfl : intent = ⟨nid,
            PhysicsEngine.overflowOf (PhysicsEngine.handlePassengerLogic t) dt e⟩ :=
          (Option.some.inj hit).symm
        refine ⟨h5, ?_⟩
        intro ne hne
        refine le_trans h6 (hbound ne ?_)
        exact PhysicsEngine.lookupEntry_mem_values _ m.edges ne hne)
  obtain ⟨e', he', hr0, hr1⟩ := hrange
  -- transfer the edge lookup to the final map
  have hsc' : ∀ k, (lookupEdge m' k).map scrubEdge = (lookupEdge m k).map scrubEdge := by
    intro k
    have h := PhysicsEngine.commitUpdates_scrub
      (PhysicsEngine.phase1List trains m dt tick rnd) m k
    rw [hcm] at h
    exact h
  obtain ⟨e'', he'', hse⟩ := PhysicsEngine.lookupEdge_scrub_transfer m' m _ e' hsc' he'
  have hlen : e''.length = e'.length := by
    have h := congrArg RailEdge.length hse; exact h
  rw [hcm] at hgi
  exact ⟨_, e'', hgi, he'', hr0, by rw [hlen]; exact hr1⟩

/-- C8 amended witness: the slow run (movement 2 per tick, all edges at
least that long) stays inside the new edge. -/
theorem C8_amended_witness :
    ∃ t' e', [c8SlowFinal].get? 0 = some t' ∧
      lookupEdge c8FinalMap t'.currentEdgeId = some e' ∧
      0 ≤ t'.position ∧ t'.position ≤ e'.length := by
  have h1 : PhysicsEngine.computeIntent c8SlowTrain c8Map 1 0 (0, 0) =
      { c8SlowTrain with nextMoveIntent := some ⟨"e2", 1⟩ } := by
    unfold PhysicsEngine.computeIntent
    rw [if_neg (by norm_num [c8SlowTrain, c8Train])]
    rw [show lookupEdge c8Map c8SlowTrain.currentEdgeId =
      some ⟨"e1", "A", "B", 10, none, false⟩ from rfl]
    dsimp only
    rw [if_pos (Or.inl ⟨rfl, by norm_num [PhysicsEngine.tentativePos,
      PhysicsEngine.effectiveDir, c8SlowTrain, c8Train]⟩)]
    rw [if_neg (by norm_num)]
    rw [if_neg (by norm_num [c8SlowTrain, c8Train])]
    rw [show lookupNode c8Map
      (if PhysicsEngine.effectiveDir c8SlowTrain = 1 then
        (RailEdge.mk "e1" "A" "B" 10 none false).toNode
      else (RailEdge.mk "e1" "A" "B" 10 none false).fromNode) =
      some ⟨"B", NodeType.connector, none, none⟩ from rfl]
    dsimp only
    rw [if_neg (by simp)]
    rw [show PhysicsEngine.resolveNextEdge
      (some ⟨"B", NodeType.connector, none, none⟩) c8Map c8SlowTrain.currentEdgeId =
      some "e2" from rfl]
    dsimp only
    have hovf : PhysicsEngine.overflowOf c8SlowTrain 1 ⟨"e1", "A", "B", 10, none, false⟩ =
        1 := by
      norm_num [PhysicsEngine.overflowOf, PhysicsEngine.tentativePos,
        PhysicsEngine.effectiveDir, c8SlowTrain, c8Train]
    rw [hovf]
  have hp1 : PhysicsEngine.phase1List [c8SlowTrain] c8Map 1 0 (fun _ => (0, 0)) =
      [{ c8SlowTrain with nextMoveIntent := some ⟨"e2", 1⟩ }] := by
    show [PhysicsEngine.phase1Train c8Map 1 0 (fun _ => (0, 0))
      (PhysicsEngine.handlePassengerLogic c8SlowTrain)] = _
    rw [show PhysicsEngine.handlePassengerLogic c8SlowTrain = c8SlowTrain from rfl]
    unfold PhysicsEngine.phase1Train
    rw [if_pos (show c8SlowTrain.state = TrainState.moving from rfl), h1]
  have hok : PhysicsEngine.update [c8SlowTrain] c8Map 1 0 (fun _ => (0, 0)) =
      Except.ok ([c8SlowFinal], c8FinalMap) := by
    rw [PhysicsEngine.update_eq, hp1]
    rfl
  exact C8_amended_position_in_range [c8SlowTrain] c8Map 1 0 (fun _ => (0, 0)) 0
    c8SlowTrain ⟨"e1", "A", "B", 10, none, false⟩ rfl rfl (Or.inl rfl)
    (by norm_num [c8SlowTrain, c8Train]) (by norm_num)
    (by norm_num [c8SlowTrain, c8Train]) (by norm_num [c8SlowTrain, c8Train]) rfl
    (by
      intro ed hed
      fin_cases hed <;> norm_num [c8SlowTrain, c8Train])
    [c8SlowFinal] c8FinalMap hok

/-- C10: one tick of `update` on two states identical except for the
edges' advisory `occupiedBy` values produces the same collision/conflict
outcome (same fatal pair, if any) and identical train records — occupancy
is written during commit but never read to alter any train's movement,
resume, intent or conflict decision. -/
theorem C10_occupancy_noninterference
    (trains : List TrainPhysics) (m1 m2 : RailMap) (dt : ℚ) (tick : Int)
    (rnd : String → ℕ × ℕ) (h : PhysicsEngine.MapsOccEq m1 m2) :
    (∀ p, PhysicsEngine.update trains m1 dt tick rnd = Except.error p ↔
      PhysicsEngine.update trains m2 dt tick rnd = Except.error p) ∧
    (PhysicsEngine.update trains m1 dt tick rnd).toOption.map Prod.fst =
      (PhysicsEngine.update trains m2 dt tick rnd).toOption.map Prod.fst := by
  have hphase : PhysicsEngine.phase1List trains m1 dt tick rnd =
      PhysicsEngine.phase1List trains m2 dt tick rnd := by
    unfold PhysicsEngine.phase1List
    rw [show PhysicsEngine.phase1Train m1 dt tick rnd =
      PhysicsEngine.phase1Train m2 dt tick rnd from
      funext (fun t => PhysicsEngine.phase1Train_occEq m1 m2 dt tick rnd t h)]
  rw [PhysicsEngine.update_eq, PhysicsEngine.update_eq, hphase]
  cases hd : PhysicsEngine.detectPhysicalCollisions
      (PhysicsEngine.phase1List trains m2 dt tick rnd) with
  | some p => exact ⟨fun _ => Iff.rfl, rfl⟩
  | none =>
    cases hc : PhysicsEngine.resolveConflicts
        (PhysicsEngine.phase1List trains m2 dt tick rnd) with
    | some p => exact ⟨fun _ => Iff.rfl, rfl⟩
    | none =>
      refine ⟨fun p => iff_of_false (fun hq => by cases hq) (fun hq => by cases hq), ?_⟩
      show some (PhysicsEngine.commitUpdates
          (PhysicsEngine.phase1List trains m2 dt tick rnd) m1).1 = some _
      exact congrArg some (PhysicsEngine.commitUpdates_fst_occEq _ m1 m2 h.lookup_eq)

theorem C10_witness :
    (∀ p, PhysicsEngine.update [c7Train] c10m1 1 0 (fun _ => (0, 0)) = Except.error p ↔
      PhysicsEngine.update [c7Train] c8Map 1 0 (fun _ => (0, 0)) = Except.error p) ∧
    (PhysicsEngine.update [c7Train] c10m1 1 0 (fun _ => (0, 0))).toOption.map Prod.fst =
      (PhysicsEngine.update [c7Train] c8Map 1 0 (fun _ => (0, 0))).toOption.map Prod.fst :=
  C10_occupancy_noninterference [c7Train] c10m1 c8Map 1 0 (fun _ => (0, 0))
    (show scrubMap c10m1 = scrubMap c8Map by decide)

/-- C9: `findPath` (BFS of `App.vue`) returns an ordered list of edge ids
forming a directed path from the start node to the target node whenever
the target is reachable along edge directions; it returns the empty list,
with no error, whenever the target is unreachable; and every node is
enqueued at most once and expanded at most once (both instrumented
histories are duplicate-free). -/
theorem C9_findPath_bfs (m : RailMap) (s t : String) :
    (AppVue.Reachable m s t → AppVue.isEdgePath m s (AppVue.findPath s t m) t) ∧
    (¬ AppVue.Reachable m s t → AppVue.findPath s t m = []) ∧
    (AppVue.bfsRun s t m).2.1.Nodup ∧
    (AppVue.bfsRun s t m).2.2.Nodup := by
  have hqval : ∀ pr ∈ [(s, ([] : List String))], AppVue.isEdgePath m s pr.2 pr.1 := by
    intro pr hpr
    have hpe : pr = (s, []) := List.mem_singleton.mp hpr
    rw [hpe]
    exact rfl
  have hqv : ∀ pr ∈ [(s, ([] : List String))], pr.1 ∈ ({s} : Finset String) := by
    intro pr hpr
    have hpe : pr = (s, []) := List.mem_singleton.mp hpr
    rw [hpe]
    exact Finset.mem_singleton_self s
  have hvu : ({s} : Finset String) ⊆ AppVue.bfsUniv m s := by
    intro x hx
    rw [Finset.mem_singleton.mp hx]
    exact Finset.mem_insert_self s _
  have hfuel : [(s, ([] : List String))].length +
      (AppVue.bfsUniv m s \ ({s} : Finset String)).card ≤ (edgeValues m).length + 2 := by
    have h1 : (AppVue.bfsUniv m s \ ({s} : Finset String)).card ≤
        (AppVue.bfsUniv m s).card := Finset.card_le_card Finset.sdiff_subset
    have h2 : (AppVue.bfsUniv m s).card ≤
        ((edgeValues m).map (fun e => e.toNode)).toFinset.card + 1 :=
      Finset.card_insert_le _ _
    have h3 : ((edgeValues m).map (fun e => e.toNode)).toFinset.card ≤
        ((edgeValues m).map (fun e => e.toNode)).length := List.toFinset_card_le _
    have h4 : ((edgeValues m).map (fun e => e.toNode)).length = (edgeValues m).length :=
      List.length_map _ _
    simp only [List.length_singleton]
    omega
  have hcl : ∀ n ∈ ({s} : Finset String),
      (∀ pr ∈ [(s, ([] : List String))], pr.1 ≠ n) →
      ∀ ed ∈ edgeValues m, ed.fromNode = n → ed.toNode ∈ ({s} : Finset String) := by
    intro n hn hnq
    have hns : n = s := Finset.mem_singleton.mp hn
    exact absurd hns.symm (hnq (s, []) (List.mem_singleton_self _))
  have htg : ∀ n ∈ ({s} : Finset String),
      (∀ pr ∈ [(s, ([] : List String))], pr.1 ≠ n) → n ≠ t := by
    intro n hn hnq
    have hns : n = s := Finset.mem_singleton.mp hn
    exact absurd hns.symm (hnq (s, []) (List.mem_singleton_self _))
  refine ⟨?_, ?_, ?_⟩
  · intro hreach
    exact AppVue.bfsAux_complete m s t ((edgeValues m).length + 2) [(s, [])] {s} [] [s]
      hfuel hqval hqv hvu (Finset.mem_singleton_self s) hcl htg hreach
  · intro hnr
    rcases AppVue.bfsAux_sound m s t ((edgeValues m).length + 2) [(s, [])] {s} [] [s]
      hqval with h | h
    · exact h
    · exact absurd ⟨_, h⟩ hnr
  · refine AppVue.bfsAux_nodup m t ((edgeValues m).length + 2) [(s, [])] {s} [] [s]
      ?_ ?_ hqv ?_ ?_
    · simp
    · intro x hx; cases hx
    · exact List.nodup_singleton s
    · intro x hx
      rw [List.mem_singleton.mp hx]
      exact Finset.mem_singleton_self s

/-- C9 witness: on the concrete line, the reachable target yields a valid
path and the histories are duplicate-free; the same theorem also gives
the unreachable case its empty result. -/
theorem C9_witness :
    AppVue.isEdgePath c9Map "A" (AppVue.findPath "A" "C" c9Map) "C" ∧
    AppVue.findPath "A" "Z" c9Map = [] ∧
    (AppVue.bfsRun "A" "C" c9Map).2.1.Nodup ∧
    (AppVue.bfsRun "A" "C" c9Map).2.2.Nodup := by
  have hnr : ¬ AppVue.Reachable c9Map "A" "Z" := by
    intro hr
    have h := (C9_findPath_bfs c9Map "A" "Z").1 hr
    revert h
    decide
  exact ⟨(C9_findPath_bfs c9Map "A" "C").1 ⟨["e1", "e2"], by decide⟩,
    (C9_findPath_bfs c9Map "A" "Z").2.1 hnr,
    (C9_findPath_bfs c9Map "A" "C").2.2.1,
    (C9_findPath_bfs c9Map "A" "C").2.2.2⟩

/-- C4 counterexample: a `buffer_stop` node with a flow-consistent
candidate edge.  `resolveNextEdge` has no buffer-stop special case and
returns that candidate, contradicting the claim that a buffer-stop node
always yields "no further edge". -/
theorem C4_counterexample_buffer_stop_yields_edge :
    c4Node.type = NodeType.buffer_stop ∧
    PhysicsEngine.resolveNextEdge (some c4Node) c4Map "e1" = some "e2" := by
  decide

/-- C4 amended: `resolveNextEdge` applies no special case to
`buffer_stop` nodes; at such a node it behaves like any non-switch node,
returning the first flow-consistent candidate in edge-id order, and
"no further edge" exactly when no flow-consistent candidate exists.
In the shipped terminal layout every buffer stop `n_pX_end` does have
an onward flow-consistent candidate (the reverse platform edge
`tX_rev`), so a forward arrival there resolves to that edge rather
than to "no further edge". -/
theorem C4_amended_buffer_stop_first_candidate
    (m : RailMap) (node : RailNode) (incomingEdgeId : String) (ie : RailEdge)
    (hbs : node.type = NodeType.buffer_stop)
    (hie : lookupEdge m incomingEdgeId = some ie) :
    PhysicsEngine.resolveNextEdge (some node) m incomingEdgeId =
      (PhysicsEngine.candidateEdges m node incomingEdgeId ie).head?.map (fun e => e.id) := by
  simp only [PhysicsEngine.resolveNextEdge, hie]
  cases h : PhysicsEngine.candidateEdges m node incomingEdgeId ie with
  | nil => rfl
  | cons c cs =>
    cases cs with
    | nil => rfl
    | cons d ds =>
      have hns : ¬ node.type = NodeType.switch := by rw [hbs]; intro hcon; cases hcon
      simp [hns]

/-- C4 amended witness: on the shipped terminal fragment, the buffer
stop `n_p1_end` resolves a forward arrival on `t1` to the first (and
only) flow-consistent candidate `t1_rev` — not to "no further edge". -/
theorem C4_amended_witness :
    c4pEnd.type = NodeType.buffer_stop ∧
    PhysicsEngine.resolveNextEdge (some c4pEnd) c4TerminalMap "t1" =
      (PhysicsEngine.candidateEdges c4TerminalMap c4pEnd "t1" c4t1).head?.map (fun e => e.id) ∧
    PhysicsEngine.resolveNextEdge (some c4pEnd) c4TerminalMap "t1" = some "t1_rev" :=
  ⟨rfl,
    C4_amended_buffer_stop_first_candidate c4TerminalMap c4pEnd "t1" c4t1 rfl (by decide),
    by decide⟩

